import Mathlib

/-!
bmwire: the MsgGetPubKey codec, MsgVerAck and the protocol identity types

A shallow embedding of `msggetpubkey.go`, `msgverack.go` and `protocol.go`.

* Machine integers are `Nat`/`Int`; the width of a field is a hypothesis
  (`MsgGetPubKey.wellFormed`) and every conversion to bytes reduces modulo the
  width.
* An `io.Reader` is the list of bytes it has not yet delivered; an `io.Writer`
  is the list of bytes accepted so far plus the room that is left.
* A Go pointer argument (`&msg.Nonce`) is a setter on the state of the caller.
* BtcDecode works on its receiver in place, so the embedding returns the
  receiver as it is when the call returns, error or not.
-/

namespace bmwire

/-! ## Errors -/

/-- The error values of the codec: the three `io` sentinel errors a stream can
report and the `MessageError` of the package (fields `Func`, `Description`,
as used in `fakemessage_test.go`). -/
inductive Error where
  | EOF
  | ErrUnexpectedEOF
  | ErrShortWrite
  | MessageError (Func : String) (Description : String)
  deriving DecidableEq, Repr

/-- Modelled from the spec: `messageError` is not among the sources; it builds
the error value that carries the name of the failing operation and a
description (spec, section 6). -/
def messageError (f : String) (desc : String) : Error :=
  Error.MessageError f desc

/-! ## Streams -/

/-- The unread bytes of a source. -/
abbrev Reader := List Nat

/-- A sink: `buf` is what it has accepted, `room` how many more bytes it takes
(`none` for a growing buffer such as `bytes.Buffer`). -/
structure Writer where
  buf : List Nat
  room : Option Nat
  deriving DecidableEq, Repr

/-- An empty growing buffer. -/
def Writer.empty : Writer := ⟨[], none⟩

/-- The call `io.ReadFull(r, buf)` with `len(buf) = n`: all `n` bytes or an
error; `io.EOF` when nothing could be read, `io.ErrUnexpectedEOF` when the
source ended early. A failed read has drained the source. -/
def ReadFull (r : Reader) (n : Nat) : Except Error (List Nat) × Reader :=
  if n ≤ r.length then (.ok (r.take n), r.drop n)
  else if r.length = 0 then (.error .EOF, [])
  else (.error .ErrUnexpectedEOF, [])

/-- The call `w.Write(p)`: a bounded sink takes what fits and reports
`io.ErrShortWrite`. -/
def Writer.Write (w : Writer) (p : List Nat) : Option Error × Writer :=
  match w.room with
  | none => (none, ⟨w.buf ++ p, none⟩)
  | some k =>
    if p.length ≤ k then (none, ⟨w.buf ++ p, some (k - p.length)⟩)
    else (some .ErrShortWrite, ⟨w.buf ++ p.take k, some 0⟩)

/-! ## Byte order -/

/-- The `n` low bytes of `v`, least significant first
(`binary.LittleEndian.PutUintN`). -/
def leBytes : Nat → Nat → List Nat
  | 0, _ => []
  | n + 1, v => (v % 256) :: leBytes n (v / 256)

/-- The value of a little-endian byte string (`binary.LittleEndian.UintN`). -/
def leValue : List Nat → Nat
  | [] => 0
  | b :: bs => b + 256 * leValue bs

/-- The `n` low bytes of `v`, most significant first
(`binary.BigEndian.PutUintN`). -/
def beBytes (n v : Nat) : List Nat := (leBytes n v).reverse

/-- The value of a big-endian byte string (`binary.BigEndian.UintN`). -/
def beValue (bs : List Nat) : Nat := leValue bs.reverse

/-- The conversion `uint64(x)` of an `int64`. -/
def toUint64 (x : Int) : Nat := (x % 18446744073709551616).toNat

/-- The conversion `int64(x)` of a `uint64`. -/
def toInt64 (x : Nat) : Int :=
  if x % 18446744073709551616 < 9223372036854775808 then
    ((x % 18446744073709551616 : Nat) : Int)
  else ((x % 18446744073709551616 : Nat) : Int) - 18446744073709551616

/-! ## Time -/

/-- A `time.Time`, as the wall clock reading it denotes: seconds since the Unix
epoch (an `int64`) and the nanoseconds within that second. Location and
monotonic clock reading are not modelled. -/
structure Time where
  sec : Int
  nsec : Nat
  deriving DecidableEq, Repr

/-- The method `t.Unix()`. -/
def Time.Unix (t : Time) : Int := t.sec

/-- The zero value `time.Time{}`: January 1, year 1, 00:00:00 UTC. -/
def Time.zero : Time := ⟨-62135596800, 0⟩

/-- The function `time.Unix(sec, nsec)`; `nsec` outside `[0, 999999999]` is
carried into the seconds. -/
def time.Unix (sec nsec : Int) : Time :=
  if nsec < 0 ∨ nsec ≥ 1000000000 then
    let n := Int.tdiv nsec 1000000000
    let sec1 := toInt64 (toUint64 (sec + n))
    let nsec1 := nsec - n * 1000000000
    if nsec1 < 0 then ⟨toInt64 (toUint64 (sec1 - 1)), (nsec1 + 1000000000).toNat⟩
    else ⟨sec1, nsec1.toNat⟩
  else ⟨sec, nsec.toNat⟩

/-! ## Primitive codec -/

/-- A value handed to `writeElement`, by its Go type. -/
inductive Element where
  | uint64 (v : Nat)
  | int64 (v : Int)
  | objectType (v : Nat)
  | ripeHash (h : List Nat)
  | shaHash (h : List Nat)
  deriving DecidableEq, Repr

/-- A pointer handed to `readElement`, by its Go type: the setter stores the
decoded value into the state `σ` of the caller. -/
inductive ElementPtr (σ : Type) where
  | uint64 (set : Nat → σ → σ)
  | int64 (set : Int → σ → σ)
  | objectType (set : Nat → σ → σ)
  | ripeHash (set : List Nat → σ → σ)
  | shaHash (set : List Nat → σ → σ)

/-- Size in bytes of a `RipeHash`. -/
def RipeHashSize : Nat := 20

/-- Size in bytes of a `ShaHash`. -/
def HashSize : Nat := 32

/-- Modelled from the spec: `writeElement` is not among the sources. Fixed
width integers and timestamps are written big-endian, hashes are copied
verbatim (spec, section 4.1); the object type takes 4 bytes (section 6). -/
def writeElement (w : Writer) (e : Element) : Option Error × Writer :=
  match e with
  | .uint64 v => w.Write (beBytes 8 v)
  | .int64 v => w.Write (beBytes 8 (toUint64 v))
  | .objectType v => w.Write (beBytes 4 v)
  | .ripeHash h => w.Write h
  | .shaHash h => w.Write h

/-- Modelled from the spec: `writeElements` is not among the sources; it
writes the elements in order and stops at the first error. -/
def writeElements (w : Writer) : List Element → Option Error × Writer
  | [] => (none, w)
  | e :: es =>
    match writeElement w e with
    | (some err, w1) => (some err, w1)
    | (none, w1) => writeElements w1 es

/-- Modelled from the spec: `readElement` is not among the sources. It reads
the full width of the element or fails with the I/O error; on a short read
nothing is stored, no value built from fewer bytes is returned (spec, section
4.1). -/
def readElement {σ : Type} (r : Reader) (p : ElementPtr σ) (s : σ) :
    Option Error × σ × Reader :=
  match p with
  | .uint64 set =>
    match ReadFull r 8 with
    | (.error err, r1) => (some err, s, r1)
    | (.ok b, r1) => (none, set (beValue b) s, r1)
  | .int64 set =>
    match ReadFull r 8 with
    | (.error err, r1) => (some err, s, r1)
    | (.ok b, r1) => (none, set (toInt64 (beValue b)) s, r1)
  | .objectType set =>
    match ReadFull r 4 with
    | (.error err, r1) => (some err, s, r1)
    | (.ok b, r1) => (none, set (beValue b) s, r1)
  | .ripeHash set =>
    match ReadFull r RipeHashSize with
    | (.error err, r1) => (some err, s, r1)
    | (.ok b, r1) => (none, set b s, r1)
  | .shaHash set =>
    match ReadFull r HashSize with
    | (.error err, r1) => (some err, s, r1)
    | (.ok b, r1) => (none, set b s, r1)

/-- Modelled from the spec: `readElements` is not among the sources; it reads
the elements in order and stops at the first error. -/
def readElements {σ : Type} (r : Reader) : List (ElementPtr σ) → σ →
    Option Error × σ × Reader
  | [], s => (none, s, r)
  | p :: ps, s =>
    match readElement r p s with
    | (some err, s1, r1) => (some err, s1, r1)
    | (none, s1, r1) => readElements r1 ps s1

/-- Modelled from the spec: `writeVarInt` is not among the sources. Values
below 0xfd take one byte; otherwise a marker byte 0xfd, 0xfe or 0xff is
followed by a little-endian field of 2, 4 or 8 bytes, the shortest that holds
the value (spec, section 4.1). -/
def writeVarInt (w : Writer) (pver : Nat) (val : Nat) : Option Error × Writer :=
  if val < 0xfd then w.Write [val % 256]
  else if val ≤ 0xffff then w.Write (0xfd :: leBytes 2 val)
  else if val ≤ 0xffffffff then w.Write (0xfe :: leBytes 4 val)
  else w.Write (0xff :: leBytes 8 val)

/-- Modelled from the spec: `readVarInt` is not among the sources. The first
byte is the value or the marker of a 2, 4 or 8 byte little-endian field; any
width is accepted (spec, section 4.1). On an error the value returned is 0. -/
def readVarInt (r : Reader) (pver : Nat) : Nat × Option Error × Reader :=
  match ReadFull r 1 with
  | (.error err, r1) => (0, some err, r1)
  | (.ok b, r1) =>
    let discriminant := leValue b
    if discriminant = 0xff then
      match ReadFull r1 8 with
      | (.error err, r2) => (0, some err, r2)
      | (.ok b8, r2) => (leValue b8, none, r2)
    else if discriminant = 0xfe then
      match ReadFull r1 4 with
      | (.error err, r2) => (0, some err, r2)
      | (.ok b4, r2) => (leValue b4, none, r2)
    else if discriminant = 0xfd then
      match ReadFull r1 2 with
      | (.error err, r2) => (0, some err, r2)
      | (.ok b2, r2) => (leValue b2, none, r2)
    else (discriminant, none, r1)

/-! ## msggetpubkey.go -/

/-- Starting in version 4, Ripe is derived from the tag and not sent
directly. -/
def TagBasedRipeVersion : Nat := 4

/-- The message `MsgGetPubKey`. `Nonce`, `Version`, `StreamNumber` are
`uint64`, `ObjectType` is a 32-bit `ObjectType`, `Ripe` a `RipeHash`
(20 bytes) and `Tag` a `ShaHash` (32 bytes). -/
structure MsgGetPubKey where
  Nonce : Nat
  ExpiresTime : Time
  ObjectType : Nat
  Version : Nat
  StreamNumber : Nat
  Ripe : List Nat
  Tag : List Nat
  deriving DecidableEq, Repr

/-- The values the Go types of the fields admit. -/
def MsgGetPubKey.wellFormed (m : MsgGetPubKey) : Prop :=
  m.Nonce < 18446744073709551616 ∧
  -9223372036854775808 ≤ m.ExpiresTime.sec ∧ m.ExpiresTime.sec < 9223372036854775808 ∧
  m.ExpiresTime.nsec < 1000000000 ∧
  m.ObjectType < 4294967296 ∧
  m.Version < 18446744073709551616 ∧
  m.StreamNumber < 18446744073709551616 ∧
  m.Ripe.length = RipeHashSize ∧ (∀ b ∈ m.Ripe, b < 256) ∧
  m.Tag.length = HashSize ∧ (∀ b ∈ m.Tag, b < 256)

instance (m : MsgGetPubKey) : Decidable m.wellFormed := by
  unfold MsgGetPubKey.wellFormed; infer_instance

/-- The zero value `MsgGetPubKey{}`. -/
def MsgGetPubKey.zero : MsgGetPubKey :=
  ⟨0, Time.zero, 0, 0, 0, List.replicate RipeHashSize 0, List.replicate HashSize 0⟩

/-- The verb `%d` of `fmt.Sprintf` on an unsigned integer. -/
def fmtD (n : Nat) : String := String.mk (Nat.toDigits 10 n)

/-- The method `BtcDecode`, on the receiver `msg`; the result is the error
returned, the receiver as the call leaves it, and the source as the call
leaves it. The constant `ObjectTypeGetPubKey`, declared outside the sources, is
the first argument. The local variable `sec` is the second component of the
state the pointers of `readElements` store into. -/
def MsgGetPubKey.BtcDecode (ObjectTypeGetPubKey : Nat) (msg : MsgGetPubKey)
    (r : Reader) (pver : Nat) : Option Error × MsgGetPubKey × Reader :=
  match readElements r
      [ .uint64 (fun v s => ({ s.1 with Nonce := v }, s.2)),
        .int64 (fun v s => (s.1, v)),
        .objectType (fun v s => ({ s.1 with ObjectType := v }, s.2)) ]
      (msg, (0 : Int)) with
  | (some err, s, r1) => (some err, s.1, r1)
  | (none, s, r1) =>
    let msg1 := s.1
    let sec := s.2
    if msg1.ObjectType ≠ ObjectTypeGetPubKey then
      let str := "Object Type should be " ++ fmtD ObjectTypeGetPubKey ++
        ", but is " ++ fmtD msg1.ObjectType
      (some (messageError "BtcDecode" str), msg1, r1)
    else
      let msg2 := { msg1 with ExpiresTime := time.Unix sec 0 }
      match readVarInt r1 pver with
      | (v, some err, r2) => (some err, { msg2 with Version := v }, r2)
      | (v, none, r2) =>
        let msg3 := { msg2 with Version := v }
        match readVarInt r2 pver with
        | (sn, some err, r3) => (some err, { msg3 with StreamNumber := sn }, r3)
        | (sn, none, r3) =>
          let msg4 := { msg3 with StreamNumber := sn }
          if msg4.Version ≥ TagBasedRipeVersion then
            match readElement r3 (.shaHash (fun h m => { m with Tag := h })) msg4 with
            | (some err, msg5, r4) => (some err, msg5, r4)
            | (none, msg5, r4) => (none, msg5, r4)
          else
            match readElement r3 (.ripeHash (fun h m => { m with Ripe := h })) msg4 with
            | (some err, msg5, r4) => (some err, msg5, r4)
            | (none, msg5, r4) => (none, msg5, r4)

/-- The method `BtcEncode`: the error returned and the sink as the call
leaves it. -/
def MsgGetPubKey.BtcEncode (msg : MsgGetPubKey) (w : Writer) (pver : Nat) :
    Option Error × Writer :=
  match writeElements w
      [.uint64 msg.Nonce, .int64 msg.ExpiresTime.Unix, .objectType msg.ObjectType] with
  | (some err, w1) => (some err, w1)
  | (none, w1) =>
    match writeVarInt w1 pver msg.Version with
    | (some err, w2) => (some err, w2)
    | (none, w2) =>
      match writeVarInt w2 pver msg.StreamNumber with
      | (some err, w3) => (some err, w3)
      | (none, w3) =>
        if msg.Version ≥ TagBasedRipeVersion then
          match writeElement w3 (.shaHash msg.Tag) with
          | (some err, w4) => (some err, w4)
          | (none, w4) => (none, w4)
        else
          match writeElement w3 (.ripeHash msg.Ripe) with
          | (some err, w4) => (some err, w4)
          | (none, w4) => (none, w4)

/-- The method `MaxPayloadLength`. -/
def MsgGetPubKey.MaxPayloadLength (msg : MsgGetPubKey) (pver : Nat) : Nat :=
  (8 + 8 + 4 + 8 + 8 + 32) % 4294967296

/-- The constructor `NewMsgGetPubKey`; `ObjectTypeGetPubKey` as for
`BtcDecode`. -/
def NewMsgGetPubKey (ObjectTypeGetPubKey : Nat) (nonce : Nat) (expires : Time)
    (version streamNumber : Nat) (ripe : List Nat) (tag : List Nat) : MsgGetPubKey :=
  { Nonce := nonce
    ExpiresTime := expires
    ObjectType := ObjectTypeGetPubKey
    Version := version
    StreamNumber := streamNumber
    Ripe := ripe
    Tag := tag }

/-! ## msgverack.go -/

/-- The message `MsgVerAck`: it has no payload and no field. -/
structure MsgVerAck where
  deriving DecidableEq, Repr

/-- The method `MsgVerAck.Decode`: the error returned, the receiver and the
source as the call leaves them. -/
def MsgVerAck.Decode (msg : MsgVerAck) (r : Reader) (pver : Nat) :
    Option Error × MsgVerAck × Reader :=
  (none, msg, r)

/-- The method `MsgVerAck.Encode`: the error returned and the sink as the call
leaves it. -/
def MsgVerAck.Encode (msg : MsgVerAck) (w : Writer) (pver : Nat) : Option Error × Writer :=
  (none, w)

/-- The method `MsgVerAck.MaxPayloadLength`. -/
def MsgVerAck.MaxPayloadLength (msg : MsgVerAck) (pver : Nat) : Nat := 0

/-- The constructor `NewMsgVerAck`. -/
def NewMsgVerAck : MsgVerAck := {}

/-! ## protocol.go -/

/-- The function `strings.TrimRight(s, cutset)`: `s` without its trailing
characters that are in `cutset`. -/
def strings.TrimRight (s cutset : String) : String :=
  String.mk (s.data.reverse.dropWhile (fun c => decide (c ∈ cutset.data))).reverse

/-- The function `strings.TrimLeft(s, cutset)`: `s` without its leading
characters that are in `cutset`. -/
def strings.TrimLeft (s cutset : String) : String :=
  String.mk (s.data.dropWhile (fun c => decide (c ∈ cutset.data)))

/-- The function `strconv.FormatUint(i, base)`, for a base up to 16: the
digits of `i`, lowercase, no leading zero. -/
def strconv.FormatUint (i base : Nat) : String := String.mk (Nat.toDigits base i)

/-- The type `ServiceFlag`, a `uint64`. -/
abbrev ServiceFlag := Nat

/-- SFNodeNetwork is a flag used to indicate a peer is a full node:
`1 << iota` at `iota = 0`. -/
def SFNodeNetwork : ServiceFlag := 1 <<< 0

/-- Map of service flags back to their constant names for pretty printing;
its one entry makes the iteration order of the Go map immaterial. -/
def sfStrings : List (ServiceFlag × String) := [(SFNodeNetwork, "SFNodeNetwork")]

/-- The method `ServiceFlag.String`. The loop over `sfStrings` carries the
string `s` and the working copy of `f`; `f -= flag` runs only when
`f&flag == flag`, so it does not wrap. -/
def ServiceFlag.String (f : ServiceFlag) : String :=
  if f = 0 then "0x0"
  else
    let st := sfStrings.foldl
      (fun st entry =>
        if st.2 &&& entry.1 = entry.1 then (st.1 ++ (entry.2 ++ "|"), st.2 - entry.1)
        else st)
      ("", f)
    let s1 := strings.TrimRight st.1 "|"
    let s2 := if st.2 ≠ 0 then s1 ++ ("|0x" ++ strconv.FormatUint st.2 16) else s1
    strings.TrimLeft s2 "|"

/-- The type `BitcoinNet`, a `uint32`. -/
abbrev BitcoinNet := Nat

/-- MainNet represents the main bitcoin network. -/
def MainNet : BitcoinNet := 0xe9beb4d9

/-- Map of bitcoin networks back to their constant names for pretty
printing. -/
def bnStrings : List (BitcoinNet × String) := [(MainNet, "MainNet")]

/-- The method `BitcoinNet.String`. -/
def BitcoinNet.String (n : BitcoinNet) : String :=
  match bnStrings.lookup n with
  | some s => s
  | none => "Unknown BitcoinNet (" ++ fmtD (n % 4294967296) ++ ")"

/-! ## The wire format in the words of the spec -/

/-- The variable length integer of the spec, section 4.1, in the words of the
spec: one byte below 0xfd; else the marker 0xfd, 0xfe or 0xff and a
little-endian field of 2, 4 or 8 bytes. -/
def varInt (v : Nat) : List Nat :=
  if v < 0xfd then [v]
  else if v ≤ 0xffff then 0xfd :: leBytes 2 v
  else if v ≤ 0xffffffff then 0xfe :: leBytes 4 v
  else 0xff :: leBytes 8 v

/-- The payload layout of the spec, section 6, in the words of the spec:
8-byte nonce, 8-byte signed timestamp, 4-byte object type, varint version,
varint stream number, then the 32-byte tag (version at least 4) or the 20-byte
ripe (version below 4); fixed width fields big-endian. -/
def wireLayout (m : MsgGetPubKey) : List Nat :=
  beBytes 8 m.Nonce ++ beBytes 8 (toUint64 m.ExpiresTime.Unix) ++ beBytes 4 m.ObjectType ++
    varInt m.Version ++ varInt m.StreamNumber ++
    (if m.Version ≥ 4 then m.Tag else m.Ripe)

/-- What a decode of the encoding of `m` into the receiver `msg0` leaves in the
receiver: the transmitted fields of `m`, the timestamp at whole seconds, and
the hash that is not transmitted as `msg0` had it. -/
def decoded (msg0 m : MsgGetPubKey) : MsgGetPubKey :=
  { Nonce := m.Nonce
    ExpiresTime := time.Unix m.ExpiresTime.Unix 0
    ObjectType := m.ObjectType
    Version := m.Version
    StreamNumber := m.StreamNumber
    Ripe := if m.Version ≥ TagBasedRipeVersion then msg0.Ripe else m.Ripe
    Tag := if m.Version ≥ TagBasedRipeVersion then m.Tag else msg0.Tag }

/-- The variable length integer at the head of `r` is in its shortest form:
a field of 2, 4 or 8 bytes holds a value that needs it. -/
def canonicalVarInt (r : List Nat) : Prop :=
  match r with
  | [] => True
  | d :: rest =>
    if d = 0xff then 0xffffffff < leValue (rest.take 8)
    else if d = 0xfe then 0xffff < leValue (rest.take 4)
    else if d = 0xfd then 0xfd ≤ leValue (rest.take 2)
    else True

instance (r : List Nat) : Decidable (canonicalVarInt r) := by
  unfold canonicalVarInt
  split
  · infer_instance
  · infer_instance

/-- The value of a lowercase hexadecimal digit: '0' is character 48, 'a' is
character 97. -/
def hexDigitValue (c : Char) : Nat :=
  if c.toNat ≤ 57 then c.toNat - 48 else c.toNat - 87

/-- The number that a string of hexadecimal digits, most significant first,
denotes. -/
def hexValue (cs : List Char) : Nat :=
  cs.foldl (fun acc c => 16 * acc + hexDigitValue c) 0

/-! ## Values for the concrete checks -/

/-- A message for the concrete checks: version 4, so the tag is on the wire and
the ripe is not. -/
def sampleV4 : MsgGetPubKey :=
  NewMsgGetPubKey 0 7 ⟨1000, 0⟩ 4 1 (List.replicate 20 1) (List.replicate 32 2)

/-- A message for the concrete checks: version 3, so the ripe is on the wire
and the tag is not. -/
def sampleV3 : MsgGetPubKey :=
  NewMsgGetPubKey 0 7 ⟨1000, 0⟩ 3 1 (List.replicate 20 1) (List.replicate 32 2)

/-- A message for the concrete checks: version 4 with an all-zero tag. -/
def sampleZeroTag : MsgGetPubKey :=
  NewMsgGetPubKey 0 7 ⟨1000, 0⟩ 4 1 (List.replicate 20 1) (List.replicate 32 0)

/-- The input of the check on C4: nonce 9, seconds 0, object type 1. -/
def mismatchInput : List Nat :=
  [0, 0, 0, 0, 0, 0, 0, 9] ++ List.replicate 8 0 ++ [0, 0, 0, 1]

/-- A message for the check on C5: Version and StreamNumber both 2^32, the
least values whose varint takes 9 bytes. -/
def sampleWide : MsgGetPubKey :=
  NewMsgGetPubKey 0 7 ⟨1000, 0⟩ 4294967296 4294967296 (List.replicate 20 1)
    (List.replicate 32 2)

/-- A time with a sub-second part, for the check on NewMsgGetPubKey. -/
def sampleExpires : Time := ⟨1000, 500000000⟩

/-- The message NewMsgGetPubKey returns for `sampleExpires`. -/
def sampleSubSecond : MsgGetPubKey :=
  NewMsgGetPubKey 0 7 sampleExpires 4 1 (List.replicate 20 1) (List.replicate 32 2)

/-- A message whose ObjectType, 1, is not the expected 0. -/
def sampleOtherType : MsgGetPubKey :=
  { Nonce := 7, ExpiresTime := ⟨1000, 0⟩, ObjectType := 1, Version := 4, StreamNumber := 1,
    Ripe := List.replicate 20 1, Tag := List.replicate 32 2 }

/-- A wire input for the check on re-encoding: nonce 7, 1000 seconds, object
type 0, version 3, stream 1, a ripe of twenty 1s, and one byte more. -/
def sampleWire : List Nat :=
  [0, 0, 0, 0, 0, 0, 0, 7] ++ [0, 0, 0, 0, 0, 0, 3, 232] ++ [0, 0, 0, 0] ++ [3] ++ [1] ++
    List.replicate 20 1 ++ [9]

/-- The input of a check on C4: 19 bytes, nonce 9, seconds 5 and only three of
the four bytes of the object type. -/
def shortInput : List Nat :=
  [0, 0, 0, 0, 0, 0, 0, 9] ++ [0, 0, 0, 0, 0, 0, 0, 5] ++ [0, 0, 0]

/-- The input of a check on C4: the 20 bytes of a header with nonce 9,
seconds 5 and the expected object type 0, and nothing after it. -/
def headerOnlyInput : List Nat :=
  [0, 0, 0, 0, 0, 0, 0, 9] ++ [0, 0, 0, 0, 0, 0, 0, 5] ++ [0, 0, 0, 0]

/-! ## Lemmas -/

theorem leBytes_length (n v : Nat) : (leBytes n v).length = n := by
  induction n generalizing v with
  | zero => rfl
  | succ n ih => simp [leBytes, ih]

theorem beBytes_length (n v : Nat) : (beBytes n v).length = n := by
  simp [beBytes, leBytes_length]

theorem leValue_leBytes (n v : Nat) : leValue (leBytes n v) = v % 256 ^ n := by
  induction n generalizing v with
  | zero => simp [leBytes, leValue, Nat.mod_one]
  | succ n ih =>
    simp only [leBytes, leValue, ih]
    rw [pow_succ, Nat.mul_comm (256 ^ n) 256, Nat.mod_mul]

theorem beValue_beBytes (n v : Nat) : beValue (beBytes n v) = v % 256 ^ n := by
  simp [beValue, beBytes, leValue_leBytes]

theorem toInt64_toUint64 (x : Int) (h1 : -9223372036854775808 ≤ x)
    (h2 : x < 9223372036854775808) : toInt64 (toUint64 x % 256 ^ 8) = x := by
  unfold toInt64 toUint64
  have e : (256 : Nat) ^ 8 = 18446744073709551616 := by norm_num
  rw [e]
  omega

theorem varInt_length_le (v : Nat) : (varInt v).length ≤ 9 := by
  unfold varInt
  split_ifs <;> simp [leBytes_length]

theorem ReadFull_append (a t : List Nat) (n : Nat) (h : a.length = n) :
    ReadFull (a ++ t) n = (.ok a, t) := by
  subst h
  simp [ReadFull]

theorem Write_buffer (b p : List Nat) :
    Writer.Write ⟨b, none⟩ p = (none, ⟨b ++ p, none⟩) := rfl

theorem writeVarInt_buffer (b : List Nat) (pver v : Nat) :
    writeVarInt ⟨b, none⟩ pver v = (none, ⟨b ++ varInt v, none⟩) := by
  unfold writeVarInt varInt
  split_ifs with h1 h2 h3
  · rw [Write_buffer, Nat.mod_eq_of_lt (by omega)]
  · rw [Write_buffer]
  · rw [Write_buffer]
  · rw [Write_buffer]

theorem readVarInt_varInt (v pver : Nat) (t : List Nat) (hv : v < 18446744073709551616) :
    readVarInt (varInt v ++ t) pver = (v, none, t) := by
  unfold varInt
  split_ifs with h1 h2 h3
  · have : ReadFull ([v] ++ t) 1 = (.ok [v], t) := ReadFull_append _ _ _ rfl
    simp only [readVarInt, this, leValue]
    rw [if_neg (by omega), if_neg (by omega), if_neg (by omega)]
    simp
  · have a1 : ReadFull (0xfd :: (leBytes 2 v ++ t)) 1 = (.ok [0xfd], leBytes 2 v ++ t) :=
      ReadFull_append [0xfd] _ 1 rfl
    have a2 : ReadFull (leBytes 2 v ++ t) 2 = (.ok (leBytes 2 v), t) :=
      ReadFull_append _ _ _ (leBytes_length _ _)
    simp only [List.cons_append, readVarInt, a1, a2, leValue, leValue_leBytes]
    norm_num
    omega
  · have a1 : ReadFull (0xfe :: (leBytes 4 v ++ t)) 1 = (.ok [0xfe], leBytes 4 v ++ t) :=
      ReadFull_append [0xfe] _ 1 rfl
    have a2 : ReadFull (leBytes 4 v ++ t) 4 = (.ok (leBytes 4 v), t) :=
      ReadFull_append _ _ _ (leBytes_length _ _)
    simp only [List.cons_append, readVarInt, a1, a2, leValue, leValue_leBytes]
    norm_num
    omega
  · have a1 : ReadFull (0xff :: (leBytes 8 v ++ t)) 1 = (.ok [0xff], leBytes 8 v ++ t) :=
      ReadFull_append [0xff] _ 1 rfl
    have a2 : ReadFull (leBytes 8 v ++ t) 8 = (.ok (leBytes 8 v), t) :=
      ReadFull_append _ _ _ (leBytes_length _ _)
    simp only [List.cons_append, readVarInt, a1, a2, leValue, leValue_leBytes]
    norm_num
    omega

theorem time_Unix_zero (sec : Int) : time.Unix sec 0 = ⟨sec, 0⟩ := by
  simp [time.Unix]

theorem BtcEncode_buffer (m : MsgGetPubKey) (b : List Nat) (pver : Nat) :
    m.BtcEncode ⟨b, none⟩ pver = (none, ⟨b ++ wireLayout m, none⟩) := by
  unfold MsgGetPubKey.BtcEncode
  simp only [writeElements, writeElement, Write_buffer, writeVarInt_buffer, wireLayout,
    TagBasedRipeVersion, List.append_assoc]
  split_ifs <;> rfl

theorem BtcDecode_wireLayout (m msg0 : MsgGetPubKey) (t : List Nat) (pver : Nat)
    (hm : m.wellFormed) :
    MsgGetPubKey.BtcDecode m.ObjectType msg0 (wireLayout m ++ t) pver =
      (none, decoded msg0 m, t) := by
  obtain ⟨hN, hs1, hs2, -, hO, hV, hS, hR, -, hT, -⟩ := hm
  have hl : wireLayout m ++ t = beBytes 8 m.Nonce ++ (beBytes 8 (toUint64 m.ExpiresTime.Unix) ++
      (beBytes 4 m.ObjectType ++ (varInt m.Version ++ (varInt m.StreamNumber ++
      ((if m.Version ≥ 4 then m.Tag else m.Ripe) ++ t))))) := by
    simp [wireLayout, List.append_assoc]
  have e8 : (256 : Nat) ^ 8 = 18446744073709551616 := by norm_num
  have e4 : (256 : Nat) ^ 4 = 4294967296 := by norm_num
  rw [hl]
  simp only [MsgGetPubKey.BtcDecode, readElements, readElement,
    ReadFull_append _ _ 8 (beBytes_length 8 _), ReadFull_append _ _ 4 (beBytes_length 4 _),
    beValue_beBytes, toInt64_toUint64 _ hs1 hs2, Time.Unix]
  rw [e8, e4, Nat.mod_eq_of_lt hN, Nat.mod_eq_of_lt hO]
  simp only [ne_eq, not_true_eq_false, if_false, readVarInt_varInt _ _ _ hV,
    readVarInt_varInt _ _ _ hS, TagBasedRipeVersion, decoded]
  by_cases h4 : m.Version ≥ 4
  · simp only [h4, if_true, ReadFull_append _ _ HashSize hT]
    rfl
  · simp only [h4, if_false, ReadFull_append _ _ RipeHashSize hR]
    rfl

theorem ReadFull_of_le (r : Reader) (n : Nat) (h : n ≤ r.length) :
    ReadFull r n = (.ok (r.take n), r.drop n) := by
  simp [ReadFull, h]

theorem ReadFull_of_lt (r : Reader) (n : Nat) (h : r.length < n) :
    ∃ err, ReadFull r n = (.error err, []) := by
  unfold ReadFull
  rw [if_neg (by omega)]
  split_ifs
  · exact ⟨_, rfl⟩
  · exact ⟨_, rfl⟩

theorem ReadFull_ok_append (r t : Reader) (n : Nat) (b : List Nat) (r1 : Reader)
    (h : ReadFull r n = (.ok b, r1)) : ReadFull (r ++ t) n = (.ok b, r1 ++ t) := by
  by_cases hn : n ≤ r.length
  · rw [ReadFull_of_le r n hn] at h
    rw [ReadFull_of_le (r ++ t) n (by simp; omega)]
    simp only [Prod.mk.injEq, Except.ok.injEq] at h
    rw [← h.1, ← h.2, List.take_append_of_le_length hn, List.drop_append_of_le_length hn]
  · obtain ⟨err, he⟩ := ReadFull_of_lt r n (by omega)
    rw [he] at h
    simp at h

theorem readElement_ok_append {σ : Type} (r t : Reader) (p : ElementPtr σ) (s s1 : σ)
    (r1 : Reader) (h : readElement r p s = (none, s1, r1)) :
    readElement (r ++ t) p s = (none, s1, r1 ++ t) := by
  cases p <;> simp only [readElement] at h ⊢ <;> split at h <;>
    simp only [Prod.mk.injEq, reduceCtorEq, false_and] at h <;>
    (rename_i hr; rw [ReadFull_ok_append _ t _ _ _ hr]; simp [h])

theorem readElements_ok_append {σ : Type} (t : Reader) (ps : List (ElementPtr σ))
    (r : Reader) (s s1 : σ) (r1 : Reader) (h : readElements r ps s = (none, s1, r1)) :
    readElements (r ++ t) ps s = (none, s1, r1 ++ t) := by
  induction ps generalizing r s with
  | nil =>
    simp only [readElements, Prod.mk.injEq, true_and] at h ⊢
    simp [h]
  | cons p ps ih =>
    simp only [readElements] at h ⊢
    split at h
    · simp at h
    · rename_i s2 r2 hp
      rw [readElement_ok_append r t p s s2 r2 hp]
      exact ih r2 s2 h

theorem readVarInt_ok_append (r t : Reader) (pver v : Nat) (r1 : Reader)
    (h : readVarInt r pver = (v, none, r1)) :
    readVarInt (r ++ t) pver = (v, none, r1 ++ t) := by
  unfold readVarInt at h ⊢
  split at h
  · simp at h
  · rename_i b r2 hb
    rw [ReadFull_ok_append r t 1 b r2 hb]
    simp only at h ⊢
    split_ifs at h ⊢
    · split at h
      · simp at h
      · rename_i b8 r3 h8
        rw [ReadFull_ok_append r2 t 8 b8 r3 h8]
        simp only [Prod.mk.injEq, true_and] at h ⊢
        simp [h]
    · split at h
      · simp at h
      · rename_i b8 r3 h8
        rw [ReadFull_ok_append r2 t 4 b8 r3 h8]
        simp only [Prod.mk.injEq, true_and] at h ⊢
        simp [h]
    · split at h
      · simp at h
      · rename_i b8 r3 h8
        rw [ReadFull_ok_append r2 t 2 b8 r3 h8]
        simp only [Prod.mk.injEq, true_and] at h ⊢
        simp [h]
    · simp only [Prod.mk.injEq, true_and] at h ⊢
      simp [h]

theorem BtcDecode_ok_append (ot : Nat) (msg : MsgGetPubKey) (r t : Reader) (pver : Nat)
    (d : MsgGetPubKey) (r1 : Reader)
    (h : MsgGetPubKey.BtcDecode ot msg r pver = (none, d, r1)) :
    MsgGetPubKey.BtcDecode ot msg (r ++ t) pver = (none, d, r1 ++ t) := by
  unfold MsgGetPubKey.BtcDecode at h ⊢
  split at h
  · simp at h
  · rename_i s r2 hp
    rw [readElements_ok_append t _ r _ s r2 hp]
    simp only at h ⊢
    split_ifs at h ⊢
    · simp [messageError] at h
    · split at h
      · simp at h
      · rename_i v r3 hv
        rw [readVarInt_ok_append r2 t pver v r3 hv]
        simp only at h ⊢
        split at h
        · simp at h
        · rename_i sn r4 hsn
          rw [readVarInt_ok_append r3 t pver sn r4 hsn]
          simp only at h ⊢
          split_ifs at h ⊢
          · split at h
            · simp at h
            · rename_i m5 r5 h5
              rw [readElement_ok_append r4 t _ _ m5 r5 h5]
              simp only [Prod.mk.injEq, true_and] at h ⊢
              simp [h]
          · split at h
            · simp at h
            · rename_i m5 r5 h5
              rw [readElement_ok_append r4 t _ _ m5 r5 h5]
              simp only [Prod.mk.injEq, true_and] at h ⊢
              simp [h]

/-- The three header fields, read from an input of at least 20 bytes. -/
theorem readElements_header (msg : MsgGetPubKey) (r : Reader) (h : 20 ≤ r.length) :
    readElements r
      [ .uint64 (fun v s => ({ s.1 with Nonce := v }, s.2)),
        .int64 (fun v s => (s.1, v)),
        .objectType (fun v s => ({ s.1 with ObjectType := v }, s.2)) ]
      (msg, (0 : Int)) =
    (none, ({ msg with Nonce := beValue (r.take 8),
                       ObjectType := beValue ((r.drop 16).take 4) },
            toInt64 (beValue ((r.drop 8).take 8))), r.drop 20) := by
  simp only [readElements, readElement]
  rw [ReadFull_of_le r 8 (by omega)]
  simp only
  rw [ReadFull_of_le (r.drop 8) 8 (by simp; omega)]
  simp only [List.drop_drop]
  rw [ReadFull_of_le (r.drop 16) 4 (by simp; omega)]
  simp only [List.drop_drop]

/-- The three header fields, read from an input of fewer than 20 bytes: an
error, and only the nonce can have been stored. -/
theorem readElements_header_short (msg : MsgGetPubKey) (r : Reader) (h : r.length < 20) :
    ∃ err, readElements r
      [ .uint64 (fun v s => ({ s.1 with Nonce := v }, s.2)),
        .int64 (fun v s => (s.1, v)),
        .objectType (fun v s => ({ s.1 with ObjectType := v }, s.2)) ]
      (msg, (0 : Int)) =
    (some err, ({ msg with Nonce := if 8 ≤ r.length then beValue (r.take 8) else msg.Nonce },
            (if 16 ≤ r.length then toInt64 (beValue ((r.drop 8).take 8)) else 0)), []) := by
  simp only [readElements, readElement]
  by_cases h8 : 8 ≤ r.length
  · rw [ReadFull_of_le r 8 h8]
    simp only
    by_cases h16 : 16 ≤ r.length
    · rw [ReadFull_of_le (r.drop 8) 8 (by simp; omega)]
      simp only [List.drop_drop]
      obtain ⟨err, he⟩ := ReadFull_of_lt (r.drop 16) 4 (by simp; omega)
      exact ⟨err, by simp [he, h8, h16]⟩
    · obtain ⟨err, he⟩ := ReadFull_of_lt (r.drop 8) 8 (by simp; omega)
      exact ⟨err, by simp [he, h8, h16]⟩
  · obtain ⟨err, he⟩ := ReadFull_of_lt r 8 (by omega)
    exact ⟨err, by simp [he, h8, show ¬ 16 ≤ r.length by omega]⟩

theorem decoded_zero (m : MsgGetPubKey) (h : m.ExpiresTime.nsec = 0) :
    decoded MsgGetPubKey.zero m =
      { m with Ripe := if m.Version ≥ 4 then List.replicate 20 0 else m.Ripe,
               Tag := if m.Version ≥ 4 then m.Tag else List.replicate 32 0 } := by
  obtain ⟨n, ⟨sec, ns⟩, o, v, sn, rp, tg⟩ := m
  simp only at h
  subst h
  simp [decoded, MsgGetPubKey.zero, time_Unix_zero, Time.Unix, TagBasedRipeVersion,
    RipeHashSize, HashSize]

theorem wireLayout_hash_length (m : MsgGetPubKey) :
    (beBytes 8 m.Nonce ++ beBytes 8 (toUint64 m.ExpiresTime.Unix) ++ beBytes 4 m.ObjectType ++
      varInt m.Version ++ varInt m.StreamNumber).length =
    20 + (varInt m.Version).length + (varInt m.StreamNumber).length := by
  simp only [List.length_append, beBytes_length]

theorem beBytes_eight (v : Nat) :
    beBytes 8 v =
      [v / 72057594037927936 % 256, v / 281474976710656 % 256, v / 1099511627776 % 256,
        v / 4294967296 % 256, v / 16777216 % 256, v / 65536 % 256, v / 256 % 256, v % 256] := by
  simp [beBytes, leBytes, Nat.div_div_eq_div_mul]

theorem beBytes_four (v : Nat) :
    beBytes 4 v = [v / 16777216 % 256, v / 65536 % 256, v / 256 % 256, v % 256] := by
  simp [beBytes, leBytes, Nat.div_div_eq_div_mul]

theorem digitChar_ne_bar : ∀ k, k < 16 → Nat.digitChar k ≠ '|' := by decide

theorem toDigitsCore_ne_bar (fuel n : Nat) (ds : List Char) (h : ∀ c ∈ ds, c ≠ '|') :
    ∀ c ∈ Nat.toDigitsCore 16 fuel n ds, c ≠ '|' := by
  induction fuel generalizing n ds with
  | zero => simpa [Nat.toDigitsCore] using h
  | succ fuel ih =>
    have hd : ∀ c ∈ Nat.digitChar (n % 16) :: ds, c ≠ '|' := by
      intro c hc
      rcases List.mem_cons.1 hc with rfl | hc
      · exact digitChar_ne_bar _ (Nat.mod_lt _ (by norm_num))
      · exact h c hc
    simp only [Nat.toDigitsCore]
    split_ifs
    · exact hd
    · exact ih _ _ hd

theorem toDigitsCore_ne_nil (b fuel n : Nat) (ds : List Char) (h : ds ≠ [] ∨ 0 < fuel) :
    Nat.toDigitsCore b fuel n ds ≠ [] := by
  induction fuel generalizing n ds with
  | zero =>
    rcases h with h | h
    · simpa [Nat.toDigitsCore] using h
    · omega
  | succ fuel ih =>
    simp only [Nat.toDigitsCore]
    split_ifs
    · exact List.cons_ne_nil _ _
    · exact ih _ _ (Or.inl (List.cons_ne_nil _ _))

theorem FormatUint_hex_ne_bar (n : Nat) : ∀ c ∈ (strconv.FormatUint n 16).data, c ≠ '|' :=
  toDigitsCore_ne_bar _ _ [] (by simp)

theorem FormatUint_ne_nil (n b : Nat) : (strconv.FormatUint n b).data ≠ [] :=
  toDigitsCore_ne_nil _ _ _ [] (Or.inr (Nat.succ_pos n))

theorem TrimLeft_bar_of_head (s : String) (c : Char) (cs : List Char)
    (h : s.data = c :: cs) (hc : c ≠ '|') : strings.TrimLeft s "|" = s := by
  apply String.ext
  have hd : ("|" : String).data = ['|'] := rfl
  simp [strings.TrimLeft, h, hd, List.dropWhile, hc]

theorem sfString_odd (f : Nat) (h : f % 2 = 1) :
    ServiceFlag.String f =
      if f - 1 ≠ 0 then "SFNodeNetwork" ++ ("|0x" ++ strconv.FormatUint (f - 1) 16)
      else "SFNodeNetwork" := by
  have h0 : f ≠ 0 := by
    rintro rfl
    simp at h
  have hand : f &&& SFNodeNetwork = SFNodeNetwork := by
    show f &&& 1 = 1
    rw [Nat.and_one_is_mod]
    exact h
  have t1 : strings.TrimRight ("" ++ ("SFNodeNetwork" ++ "|")) "|" = "SFNodeNetwork" := by
    decide
  unfold ServiceFlag.String
  rw [if_neg h0]
  simp only [sfStrings, List.foldl, hand, if_true, t1]
  have e1 : f - SFNodeNetwork = f - 1 := rfl
  rw [e1]
  split_ifs
  · exact TrimLeft_bar_of_head _ 'S' _ rfl (by decide)
  · decide

theorem sfString_even (f : Nat) (h0 : f ≠ 0) (h : f % 2 = 0) :
    ServiceFlag.String f = "0x" ++ strconv.FormatUint f 16 := by
  have hand : ¬ f &&& SFNodeNetwork = SFNodeNetwork := by
    show ¬ f &&& 1 = 1
    rw [Nat.and_one_is_mod]
    omega
  have t1 : strings.TrimRight "" "|" = "" := by decide
  unfold ServiceFlag.String
  rw [if_neg h0]
  simp only [sfStrings, List.foldl, hand, if_false, t1, ne_eq, h0, not_false_eq_true, if_true]
  apply String.ext
  have hd : ("|" : String).data = ['|'] := rfl
  have hx : ("|0x" : String).data = ['|', '0', 'x'] := rfl
  have hy : ("0x" : String).data = ['0', 'x'] := rfl
  simp [strings.TrimLeft, hd, hx, hy, List.dropWhile, strconv.FormatUint]

theorem getLast?_append_hex (l : List Char) (n : Nat) :
    (l ++ (strconv.FormatUint n 16).data).getLast? ≠ some '|' := by
  rw [List.getLast?_append_of_ne_nil l (FormatUint_ne_nil n 16)]
  intro h
  exact FormatUint_hex_ne_bar n _ (List.mem_of_getLast?_eq_some h) rfl

theorem varInt_length (v : Nat) :
    (varInt v).length =
      if v < 0xfd then 1 else if v ≤ 0xffff then 3 else if v ≤ 0xffffffff then 5 else 9 := by
  unfold varInt
  split_ifs <;> simp [leBytes_length]

theorem leBytes_lt (n v : Nat) : ∀ x ∈ leBytes n v, x < 256 := by
  induction n generalizing v with
  | zero => simp [leBytes]
  | succ n ih =>
    intro x hx
    simp only [leBytes, List.mem_cons] at hx
    rcases hx with rfl | hx
    · exact Nat.mod_lt _ (by norm_num)
    · exact ih _ x hx

theorem BtcDecode_mismatch (ot : Nat) (msg : MsgGetPubKey) (r : Reader) (pver : Nat)
    (hlen : 20 ≤ r.length) (hne : beValue ((r.drop 16).take 4) ≠ ot) :
    MsgGetPubKey.BtcDecode ot msg r pver =
      (some (Error.MessageError "BtcDecode"
          ("Object Type should be " ++ fmtD ot ++ ", but is " ++
            fmtD (beValue ((r.drop 16).take 4)))),
       { msg with Nonce := beValue (r.take 8), ObjectType := beValue ((r.drop 16).take 4) },
       r.drop 20) := by
  unfold MsgGetPubKey.BtcDecode
  rw [readElements_header msg r hlen]
  simp only [ne_eq, hne, not_false_eq_true, if_true, messageError]

theorem wireLayout_objectType (m : MsgGetPubKey) :
    ((wireLayout m).drop 16).take 4 = beBytes 4 m.ObjectType := by
  have hl : wireLayout m = (beBytes 8 m.Nonce ++ beBytes 8 (toUint64 m.ExpiresTime.Unix)) ++
      (beBytes 4 m.ObjectType ++ (varInt m.Version ++ (varInt m.StreamNumber ++
      (if m.Version ≥ 4 then m.Tag else m.Ripe)))) := by
    simp [wireLayout, List.append_assoc]
  rw [hl, List.drop_left' (by simp [beBytes_length]), List.take_left' (beBytes_length 4 _)]

theorem wireLayout_length_ge (m : MsgGetPubKey) : 20 ≤ (wireLayout m).length := by
  unfold wireLayout
  rw [List.length_append, wireLayout_hash_length]
  omega

theorem leBytes_leValue (bs : List Nat) (hb : ∀ x ∈ bs, x < 256) :
    leBytes bs.length (leValue bs) = bs := by
  induction bs with
  | nil => rfl
  | cons b bs ih =>
    have h1 : b < 256 := hb b (List.mem_cons_self _ _)
    have h2 := ih (fun x hx => hb x (List.mem_cons_of_mem _ hx))
    simp only [List.length_cons, leBytes, leValue]
    rw [Nat.add_mul_mod_self_left, Nat.mod_eq_of_lt h1, Nat.add_mul_div_left _ _ (by norm_num),
      Nat.div_eq_of_lt h1, Nat.zero_add, h2]

theorem leValue_lt (bs : List Nat) (hb : ∀ x ∈ bs, x < 256) :
    leValue bs < 256 ^ bs.length := by
  induction bs with
  | nil => simp [leValue]
  | cons b bs ih =>
    have h1 : b < 256 := hb b (List.mem_cons_self _ _)
    have h2 := ih (fun x hx => hb x (List.mem_cons_of_mem _ hx))
    simp only [List.length_cons, leValue, pow_succ]
    omega

theorem beBytes_beValue (bs : List Nat) (n : Nat) (hn : bs.length = n)
    (hb : ∀ x ∈ bs, x < 256) : beBytes n (beValue bs) = bs := by
  subst hn
  have h := leBytes_leValue bs.reverse (fun x hx => hb x (List.mem_reverse.1 hx))
  rw [List.length_reverse] at h
  simp [beBytes, beValue, h]

theorem beValue_lt (bs : List Nat) (hb : ∀ x ∈ bs, x < 256) :
    beValue bs < 256 ^ bs.length := by
  have h := leValue_lt bs.reverse (fun x hx => hb x (List.mem_reverse.1 hx))
  rw [List.length_reverse] at h
  exact h

theorem toUint64_toInt64 (x : Nat) (hx : x < 18446744073709551616) :
    toUint64 (toInt64 x) = x := by
  unfold toInt64 toUint64
  split_ifs <;> omega

theorem ReadFull_ok_eq (r : Reader) (n : Nat) (b : List Nat) (r1 : Reader)
    (h : ReadFull r n = (.ok b, r1)) : r = b ++ r1 ∧ b.length = n ∧ b = r.take n := by
  by_cases hn : n ≤ r.length
  · rw [ReadFull_of_le r n hn] at h
    simp only [Prod.mk.injEq, Except.ok.injEq] at h
    rw [← h.1, ← h.2]
    exact ⟨(List.take_append_drop n r).symm, by simp [hn], rfl⟩
  · obtain ⟨err, he⟩ := ReadFull_of_lt r n (by omega)
    rw [he] at h
    simp at h

theorem readVarInt_field (rest : Reader) (n : Nat) (v : Nat) (r1 : Reader)
    (hb : ∀ x ∈ rest, x < 256)
    (h : (match ReadFull rest n with
        | (.error err, r2) => ((0 : Nat), some err, r2)
        | (.ok bs, r2) => (leValue bs, none, r2)) = (v, none, r1)) :
    rest = leBytes n v ++ r1 ∧ v = leValue (rest.take n) := by
  rcases hr : ReadFull rest n with ⟨x, r2⟩
  rw [hr] at h
  cases x with
  | error e => simp at h
  | ok bs =>
    simp only [Prod.mk.injEq, true_and] at h
    obtain ⟨e1, e2, e3⟩ := ReadFull_ok_eq rest n bs r2 hr
    obtain ⟨hv, hr1⟩ := h
    subst hv hr1
    have hbs : ∀ x ∈ bs, x < 256 := by
      intro x hx
      exact hb x (by rw [e1]; exact List.mem_append_left _ hx)
    have := leBytes_leValue bs hbs
    rw [e2] at this
    rw [this]
    exact ⟨e1, by rw [e3]⟩

theorem readVarInt_canonical (r : Reader) (pver v : Nat) (r1 : Reader)
    (hb : ∀ x ∈ r, x < 256) (hc : canonicalVarInt r)
    (h : readVarInt r pver = (v, none, r1)) : r = varInt v ++ r1 := by
  cases r with
  | nil => simp [readVarInt, ReadFull] at h
  | cons d rest =>
    have hd : d < 256 := hb d (List.mem_cons_self _ _)
    have hrest : ∀ x ∈ rest, x < 256 := fun x hx => hb x (List.mem_cons_of_mem _ hx)
    have h1 : ReadFull (d :: rest) 1 = (.ok [d], rest) := ReadFull_append [d] rest 1 rfl
    simp only [readVarInt, h1, leValue, Nat.mul_zero, Nat.add_zero] at h
    simp only [canonicalVarInt] at hc
    by_cases hff : d = 0xff
    · subst hff
      simp only [if_true] at h hc
      obtain ⟨e1, e2⟩ := readVarInt_field rest 8 v r1 hrest h
      rw [← e2] at hc
      rw [varInt, if_neg (by omega), if_neg (by omega), if_neg (by omega), List.cons_append,
        ← e1]
    · by_cases hfe : d = 0xfe
      · subst hfe
        simp only [if_neg hff, if_true] at h hc
        obtain ⟨e1, e2⟩ := readVarInt_field rest 4 v r1 hrest h
        rw [← e2] at hc
        have hlt : v < 256 ^ 4 := by
          rw [e2]
          refine lt_of_lt_of_le (leValue_lt _ (fun x hx => hrest x (List.mem_of_mem_take hx))) ?_
          exact Nat.pow_le_pow_right (by norm_num) (List.length_take_le _ _)
        have e4 : (256 : Nat) ^ 4 = 4294967296 := by norm_num
        rw [varInt, if_neg (by omega), if_neg (by omega), if_pos (by omega), List.cons_append,
          ← e1]
      · by_cases hfd : d = 0xfd
        · subst hfd
          simp only [if_neg hff, if_neg hfe, if_true] at h hc
          obtain ⟨e1, e2⟩ := readVarInt_field rest 2 v r1 hrest h
          rw [← e2] at hc
          have hlt : v < 256 ^ 2 := by
            rw [e2]
            refine lt_of_lt_of_le
              (leValue_lt _ (fun x hx => hrest x (List.mem_of_mem_take hx))) ?_
            exact Nat.pow_le_pow_right (by norm_num) (List.length_take_le _ _)
          have e4 : (256 : Nat) ^ 2 = 65536 := by norm_num
          rw [varInt, if_neg (by omega), if_pos (by omega), List.cons_append, ← e1]
        · simp only [if_neg hff, if_neg hfe, if_neg hfd, Prod.mk.injEq, true_and] at h
          obtain ⟨hv, hr1⟩ := h
          subst hv hr1
          rw [varInt, if_pos (by omega)]
          rfl

theorem header_reencode (b : List Nat) (hb : ∀ x ∈ b, x < 256) (h20 : 20 ≤ b.length) :
    beBytes 8 (beValue (b.take 8)) ++
      (beBytes 8 (toUint64 (toInt64 (beValue ((b.drop 8).take 8)))) ++
        (beBytes 4 (beValue ((b.drop 16).take 4)) ++ b.drop 20)) = b := by
  have m1 : ∀ x ∈ b.take 8, x < 256 := fun x hx => hb x (List.mem_of_mem_take hx)
  have m2 : ∀ x ∈ (b.drop 8).take 8, x < 256 :=
    fun x hx => hb x (List.mem_of_mem_drop (List.mem_of_mem_take hx))
  have m3 : ∀ x ∈ (b.drop 16).take 4, x < 256 :=
    fun x hx => hb x (List.mem_of_mem_drop (List.mem_of_mem_take hx))
  have l1 : (b.take 8).length = 8 := by simp; omega
  have l2 : ((b.drop 8).take 8).length = 8 := by simp; omega
  have l3 : ((b.drop 16).take 4).length = 4 := by simp; omega
  have hlt : beValue ((b.drop 8).take 8) < 18446744073709551616 := by
    have := beValue_lt _ m2
    rw [l2] at this
    norm_num at this
    exact this
  rw [beBytes_beValue _ 8 l1 m1, toUint64_toInt64 _ hlt, beBytes_beValue _ 8 l2 m2,
    beBytes_beValue _ 4 l3 m3]
  have e1 : b.drop 20 = (b.drop 16).drop 4 := by simp [List.drop_drop]
  have e2 : b.drop 16 = (b.drop 8).drop 8 := by simp [List.drop_drop]
  rw [e1, List.take_append_drop, e2, List.take_append_drop, List.take_append_drop]

theorem BtcDecode_reencode (ot : Nat) (msg0 : MsgGetPubKey) (b : List Nat) (pver : Nat)
    (d : MsgGetPubKey) (r1 : Reader) (hb : ∀ x ∈ b, x < 256)
    (hdec : MsgGetPubKey.BtcDecode ot msg0 b pver = (none, d, r1))
    (hc1 : canonicalVarInt (b.drop 20))
    (hc2 : canonicalVarInt (readVarInt (b.drop 20) pver).2.2) :
    wireLayout d ++ r1 = b := by
  by_cases h20 : 20 ≤ b.length
  · have hhead := header_reencode b hb h20
    have hb20 : ∀ x ∈ b.drop 20, x < 256 := fun x hx => hb x (List.mem_of_mem_drop hx)
    unfold MsgGetPubKey.BtcDecode at hdec
    rw [readElements_header msg0 b h20] at hdec
    simp only at hdec
    by_cases hne : beValue ((b.drop 16).take 4) = ot
    · simp only [ne_eq, hne, not_true_eq_false, if_false] at hdec
      rcases hv : readVarInt (b.drop 20) pver with ⟨v, e1, r2⟩
      rw [hv] at hdec hc2
      cases e1 with
      | some e => simp at hdec
      | none =>
        simp only at hdec hc2
        have hd20 := readVarInt_canonical _ pver v r2 hb20 hc1 hv
        have hbr2 : ∀ x ∈ r2, x < 256 := by
          intro x hx
          exact hb20 x (by rw [hd20]; exact List.mem_append_right _ hx)
        rcases hs : readVarInt r2 pver with ⟨sn, e2, r3⟩
        rw [hs] at hdec
        cases e2 with
        | some e => simp at hdec
        | none =>
          simp only at hdec
          have hdr2 := readVarInt_canonical _ pver sn r3 hbr2 hc2 hs
          rw [← hhead, hd20, hdr2]
          split_ifs at hdec with h4
          · simp only [readElement] at hdec
            rcases hh : ReadFull r3 HashSize with ⟨x, r4⟩
            rw [hh] at hdec
            cases x with
            | error e => simp at hdec
            | ok hs =>
              simp only [Prod.mk.injEq, true_and] at hdec
              obtain ⟨hd, hr⟩ := hdec
              subst hd hr
              obtain ⟨e3, -, -⟩ := ReadFull_ok_eq _ _ _ _ hh
              have h4a : v ≥ 4 := h4
              simp only [wireLayout, Time.Unix, time_Unix_zero, h4a, if_true, hne, e3,
                List.append_assoc]
          · simp only [readElement] at hdec
            rcases hh : ReadFull r3 RipeHashSize with ⟨x, r4⟩
            rw [hh] at hdec
            cases x with
            | error e => simp at hdec
            | ok hs =>
              simp only [Prod.mk.injEq, true_and] at hdec
              obtain ⟨hd, hr⟩ := hdec
              subst hd hr
              obtain ⟨e3, -, -⟩ := ReadFull_ok_eq _ _ _ _ hh
              have h4a : ¬ v ≥ 4 := h4
              simp only [wireLayout, Time.Unix, time_Unix_zero, h4a, if_false, hne, e3,
                List.append_assoc]
    · simp [hne, messageError] at hdec
  · obtain ⟨err, he⟩ := readElements_header_short msg0 b (by omega)
    unfold MsgGetPubKey.BtcDecode at hdec
    rw [he] at hdec
    simp at hdec

theorem hexDigitValue_digitChar : ∀ k, k < 16 → hexDigitValue (Nat.digitChar k) = k := by
  decide

theorem hexValue_append_singleton (cs : List Char) (c : Char) :
    hexValue (cs ++ [c]) = 16 * hexValue cs + hexDigitValue c := by
  simp [hexValue, List.foldl_append]

theorem toDigitsCore_hexValue (fuel n : Nat) (ds : List Char) (h : n < fuel) :
    ∃ pre, Nat.toDigitsCore 16 fuel n ds = pre ++ ds ∧ hexValue pre = n := by
  induction fuel generalizing n ds with
  | zero => omega
  | succ fuel ih =>
    simp only [Nat.toDigitsCore]
    split_ifs with h0
    · refine ⟨[Nat.digitChar (n % 16)], rfl, ?_⟩
      have := hexValue_append_singleton [] (Nat.digitChar (n % 16))
      simp only [List.nil_append] at this
      rw [this, hexDigitValue_digitChar _ (Nat.mod_lt _ (by norm_num))]
      simp only [hexValue, List.foldl_nil]
      omega
    · obtain ⟨pre, e1, e2⟩ := ih (n / 16) (Nat.digitChar (n % 16) :: ds) (by omega)
      refine ⟨pre ++ [Nat.digitChar (n % 16)], ?_, ?_⟩
      · rw [e1]
        simp
      · rw [hexValue_append_singleton, e2,
          hexDigitValue_digitChar _ (Nat.mod_lt _ (by norm_num))]
        omega

theorem hexValue_FormatUint (n : Nat) : hexValue (strconv.FormatUint n 16).data = n := by
  obtain ⟨pre, e1, e2⟩ := toDigitsCore_hexValue (n + 1) n [] (Nat.lt_succ_self n)
  have : (strconv.FormatUint n 16).data = pre := by
    rw [List.append_nil] at e1
    exact e1
  rw [this, e2]

theorem FormatUint_hex_injective (f g : Nat)
    (h : (strconv.FormatUint f 16).data = (strconv.FormatUint g 16).data) : f = g := by
  rw [← hexValue_FormatUint f, ← hexValue_FormatUint g, h]

theorem sfString_data (f : Nat) :
    (ServiceFlag.String f).data =
      if f % 2 = 0 then '0' :: 'x' :: (strconv.FormatUint f 16).data
      else ("SFNodeNetwork" : String).data ++
        (if f - 1 ≠ 0 then '|' :: '0' :: 'x' :: (strconv.FormatUint (f - 1) 16).data else []) := by
  by_cases h0 : f = 0
  · subst h0
    decide
  rcases Nat.mod_two_eq_zero_or_one f with h2 | h2
  · rw [sfString_even f h0 h2, if_pos h2]
    rfl
  · have hn : ¬ f % 2 = 0 := by omega
    rw [sfString_odd f h2]
    simp only [hn, if_false]
    split_ifs
    · rfl
    · simp

theorem readVarInt_error_value (r : Reader) (pver : Nat)
    (h : (readVarInt r pver).2.1 ≠ none) : (readVarInt r pver).1 = 0 := by
  unfold readVarInt at h ⊢
  split
  · rfl
  · rename_i b r1 hb
    rw [hb] at h
    simp only at h ⊢
    split_ifs at h ⊢
    · split
      · rfl
      · rename_i b8 r2 h8
        rw [h8] at h
        simp at h
    · split
      · rfl
      · rename_i b8 r2 h8
        rw [h8] at h
        simp at h
    · split
      · rfl
      · rename_i b8 r2 h8
        rw [h8] at h
        simp at h
    · simp at h

/-! ## The claims -/

/-- C1, as stated, fails: the message NewMsgGetPubKey returns for version 4
with a non-zero Ripe encodes and decodes without error, and the decoded Ripe is
all zero, not the Ripe of the message. -/
theorem roundtrip_all_fields_counterexample :
    sampleV4.wellFormed ∧ sampleV4.ObjectType = 0 ∧
    (sampleV4.BtcEncode Writer.empty 3).1 = none ∧
    (MsgGetPubKey.BtcDecode 0 MsgGetPubKey.zero (sampleV4.BtcEncode Writer.empty 3).2.buf 3).1
      = none ∧
    (MsgGetPubKey.BtcDecode 0 MsgGetPubKey.zero
      (sampleV4.BtcEncode Writer.empty 3).2.buf 3).2.1.Ripe = List.replicate 20 0 ∧
    (MsgGetPubKey.BtcDecode 0 MsgGetPubKey.zero
      (sampleV4.BtcEncode Writer.empty 3).2.buf 3).2.1 ≠ sampleV4 := by
  decide

/-- C1, amended: for every well-formed message whose ObjectType is
ObjectTypeGetPubKey and whose ExpiresTime has no sub-second part, and every
pver, BtcEncode into an empty buffer succeeds and BtcDecode of those bytes into
a zero-valued message succeeds, consumes all of them and yields Nonce,
ExpiresTime, ObjectType, Version, StreamNumber of the message and the hash its
Version selects (Tag from version 4, Ripe below); the other hash is all
zero. -/
theorem roundtrip_transmitted_fields (ObjectTypeGetPubKey : Nat) (m : MsgGetPubKey)
    (pver : Nat) (hm : m.wellFormed) (ho : m.ObjectType = ObjectTypeGetPubKey)
    (hns : m.ExpiresTime.nsec = 0) :
    (m.BtcEncode Writer.empty pver).1 = none ∧
    MsgGetPubKey.BtcDecode ObjectTypeGetPubKey MsgGetPubKey.zero
        (m.BtcEncode Writer.empty pver).2.buf pver =
      (none,
       { m with Ripe := if m.Version ≥ 4 then List.replicate 20 0 else m.Ripe,
                Tag := if m.Version ≥ 4 then m.Tag else List.replicate 32 0 },
       []) := by
  subst ho
  have h := BtcDecode_wireLayout m MsgGetPubKey.zero [] pver hm
  rw [decoded_zero m hns, List.append_nil] at h
  simp only [Writer.empty, BtcEncode_buffer, List.nil_append]
  exact ⟨trivial, h⟩

/-- The amended C1 at the version 3 sample message. -/
theorem roundtrip_transmitted_fields_witness :
    sampleV3.wellFormed ∧ sampleV3.ObjectType = 0 ∧ sampleV3.ExpiresTime.nsec = 0 ∧
    (sampleV3.BtcEncode Writer.empty 3).1 = none ∧
    MsgGetPubKey.BtcDecode 0 MsgGetPubKey.zero (sampleV3.BtcEncode Writer.empty 3).2.buf 3 =
      (none,
       { sampleV3 with
           Ripe := if sampleV3.Version ≥ 4 then List.replicate 20 0 else sampleV3.Ripe,
           Tag := if sampleV3.Version ≥ 4 then sampleV3.Tag else List.replicate 32 0 },
       []) :=
  ⟨by decide, by decide, by decide,
    roundtrip_transmitted_fields 0 sampleV3 3 (by decide) (by decide) (by decide)⟩

/-- C2: on every input of at least 20 bytes whose object type field, bytes 16
to 19 read big-endian, differs from ObjectTypeGetPubKey, BtcDecode returns the
message error of "BtcDecode" whose description gives the expected and the
actual object type in decimal; the source is left at byte 20, so nothing after
the discriminant is read, and of the receiver only Nonce and ObjectType are
stored. -/
theorem discriminant_enforced (ObjectTypeGetPubKey : Nat) (msg : MsgGetPubKey)
    (r : Reader) (pver : Nat) (hlen : 20 ≤ r.length)
    (hne : beValue ((r.drop 16).take 4) ≠ ObjectTypeGetPubKey) :
    MsgGetPubKey.BtcDecode ObjectTypeGetPubKey msg r pver =
      (some (Error.MessageError "BtcDecode"
          ("Object Type should be " ++ fmtD ObjectTypeGetPubKey ++ ", but is " ++
            fmtD (beValue ((r.drop 16).take 4)))),
       { msg with Nonce := beValue (r.take 8), ObjectType := beValue ((r.drop 16).take 4) },
       r.drop 20) := by
  unfold MsgGetPubKey.BtcDecode
  rw [readElements_header msg r hlen]
  simp only [ne_eq, hne, not_false_eq_true, if_true, messageError]

/-- The theorem of C2 at a 22 byte input with object type 1 where 0 is
expected: the two bytes after the discriminant stay unread. -/
theorem discriminant_enforced_witness :
    20 ≤ (List.replicate 19 0 ++ [1, 4, 1]).length ∧
    beValue (((List.replicate 19 0 ++ [1, 4, 1]).drop 16).take 4) ≠ 0 ∧
    (MsgGetPubKey.BtcDecode 0 MsgGetPubKey.zero (List.replicate 19 0 ++ [1, 4, 1]) 3).1 =
      some (Error.MessageError "BtcDecode" "Object Type should be 0, but is 1") ∧
    (MsgGetPubKey.BtcDecode 0 MsgGetPubKey.zero (List.replicate 19 0 ++ [1, 4, 1]) 3).2.2 =
      [4, 1] := by
  have h := discriminant_enforced 0 MsgGetPubKey.zero (List.replicate 19 0 ++ [1, 4, 1]) 3
    (by decide) (by decide)
  refine ⟨by decide, by decide, ?_, ?_⟩
  · rw [h]; decide
  · rw [h]; decide

/-- C3: the threshold TagBasedRipeVersion is 4. For every well-formed message
with ObjectType = ObjectTypeGetPubKey, decoding its encoding into a zero-valued
message succeeds; when Version is at least 4 the decoded Tag is the Tag of the
message and the decoded Ripe is all zero, and the bytes written after the two
varints are the 32 bytes of the Tag; when Version is below 4 the decoded Ripe
is the Ripe of the message and the decoded Tag is all zero, and the bytes
written after the varints are the 20 bytes of the Ripe. The decode reads
exactly those bytes: whatever follows the encoding is left unread. -/
theorem version_gating (ObjectTypeGetPubKey : Nat) (m : MsgGetPubKey) (pver : Nat)
    (hm : m.wellFormed) (ho : m.ObjectType = ObjectTypeGetPubKey) :
    TagBasedRipeVersion = 4 ∧
    (MsgGetPubKey.BtcDecode ObjectTypeGetPubKey MsgGetPubKey.zero
      (m.BtcEncode Writer.empty pver).2.buf pver).1 = none ∧
    (m.Version ≥ 4 →
      (MsgGetPubKey.BtcDecode ObjectTypeGetPubKey MsgGetPubKey.zero
        (m.BtcEncode Writer.empty pver).2.buf pver).2.1.Tag = m.Tag ∧
      (MsgGetPubKey.BtcDecode ObjectTypeGetPubKey MsgGetPubKey.zero
        (m.BtcEncode Writer.empty pver).2.buf pver).2.1.Ripe = List.replicate 20 0 ∧
      (m.BtcEncode Writer.empty pver).2.buf.length =
        20 + (varInt m.Version).length + (varInt m.StreamNumber).length + 32 ∧
      (m.BtcEncode Writer.empty pver).2.buf.drop
        (20 + (varInt m.Version).length + (varInt m.StreamNumber).length) = m.Tag) ∧
    (m.Version < 4 →
      (MsgGetPubKey.BtcDecode ObjectTypeGetPubKey MsgGetPubKey.zero
        (m.BtcEncode Writer.empty pver).2.buf pver).2.1.Ripe = m.Ripe ∧
      (MsgGetPubKey.BtcDecode ObjectTypeGetPubKey MsgGetPubKey.zero
        (m.BtcEncode Writer.empty pver).2.buf pver).2.1.Tag = List.replicate 32 0 ∧
      (m.BtcEncode Writer.empty pver).2.buf.length =
        20 + (varInt m.Version).length + (varInt m.StreamNumber).length + 20 ∧
      (m.BtcEncode Writer.empty pver).2.buf.drop
        (20 + (varInt m.Version).length + (varInt m.StreamNumber).length) = m.Ripe) ∧
    ∀ t : List Nat,
      (MsgGetPubKey.BtcDecode ObjectTypeGetPubKey MsgGetPubKey.zero
        ((m.BtcEncode Writer.empty pver).2.buf ++ t) pver).2.2 = t := by
  subst ho
  have h := BtcDecode_wireLayout m MsgGetPubKey.zero [] pver hm
  rw [List.append_nil] at h
  have hT : m.Tag.length = 32 := hm.2.2.2.2.2.2.2.2.2.1
  have hR : m.Ripe.length = 20 := hm.2.2.2.2.2.2.2.1
  simp only [Writer.empty, BtcEncode_buffer, List.nil_append, h]
  refine ⟨rfl, trivial, ?_, ?_, ?_⟩
  · intro h4a
    have h4 : m.Version ≥ TagBasedRipeVersion := h4a
    refine ⟨by simp [decoded, h4], by simp [decoded, h4, MsgGetPubKey.zero, RipeHashSize], ?_, ?_⟩
    · unfold wireLayout
      rw [if_pos h4a, List.length_append, wireLayout_hash_length, hT]
    · unfold wireLayout
      rw [if_pos h4a]
      exact List.drop_left' (wireLayout_hash_length m)
  · intro h4
    have h4a : ¬ m.Version ≥ 4 := by omega
    have h4b : ¬ m.Version ≥ TagBasedRipeVersion := h4a
    refine ⟨by simp [decoded, h4b], by simp [decoded, h4b, MsgGetPubKey.zero, HashSize], ?_, ?_⟩
    · unfold wireLayout
      rw [if_neg h4a, List.length_append, wireLayout_hash_length, hR]
    · unfold wireLayout
      rw [if_neg h4a]
      exact List.drop_left' (wireLayout_hash_length m)
  · intro t
    rw [BtcDecode_wireLayout m MsgGetPubKey.zero t pver hm]

/-- The theorem of C3 on both sides of the threshold. At version 4 with an
all-zero Tag the zero Tag comes back in the Tag field, the Ripe of twenty 1s is
not sent and comes back zero, and 32 bytes follow the varints. At version 3
the Ripe of twenty 1s comes back in the Ripe field, the Tag of thirty-two 2s is
not sent and comes back zero, and 20 bytes follow the varints. -/
theorem version_gating_witness :
    (sampleZeroTag.wellFormed ∧ sampleZeroTag.ObjectType = 0 ∧ sampleZeroTag.Version = 4 ∧
      (MsgGetPubKey.BtcDecode 0 MsgGetPubKey.zero
        (sampleZeroTag.BtcEncode Writer.empty 3).2.buf 3).2.1.Tag = List.replicate 32 0 ∧
      (MsgGetPubKey.BtcDecode 0 MsgGetPubKey.zero
        (sampleZeroTag.BtcEncode Writer.empty 3).2.buf 3).2.1.Ripe = List.replicate 20 0 ∧
      (sampleZeroTag.BtcEncode Writer.empty 3).2.buf.length = 20 + 1 + 1 + 32) ∧
    (sampleV3.wellFormed ∧ sampleV3.ObjectType = 0 ∧ sampleV3.Version = 3 ∧
      (MsgGetPubKey.BtcDecode 0 MsgGetPubKey.zero
        (sampleV3.BtcEncode Writer.empty 3).2.buf 3).2.1.Ripe = List.replicate 20 1 ∧
      (MsgGetPubKey.BtcDecode 0 MsgGetPubKey.zero
        (sampleV3.BtcEncode Writer.empty 3).2.buf 3).2.1.Tag = List.replicate 32 0 ∧
      (sampleV3.BtcEncode Writer.empty 3).2.buf.length = 20 + 1 + 1 + 20) :=
  have h4 := version_gating 0 sampleZeroTag 3 (by decide) (by decide)
  have h3 := version_gating 0 sampleV3 3 (by decide) (by decide)
  ⟨⟨by decide, by decide, by decide, (h4.2.2.1 (by decide)).1, (h4.2.2.1 (by decide)).2.1,
      (h4.2.2.1 (by decide)).2.2.1⟩,
    ⟨by decide, by decide, by decide, (h3.2.2.2.1 (by decide)).1, (h3.2.2.2.1 (by decide)).2.1,
      (h3.2.2.2.1 (by decide)).2.2.1⟩⟩

/-- C4, as stated, fails: on a 20 byte input with object type 1, where 0 is
expected, BtcDecode into a receiver with Nonce 7 and ObjectType 0 returns the
message error and leaves Nonce 9 and ObjectType 1 in the receiver. -/
theorem failed_decode_not_atomic_counterexample :
    (MsgGetPubKey.BtcDecode 0 sampleV4 mismatchInput 3).1 =
      some (Error.MessageError "BtcDecode" "Object Type should be 0, but is 1") ∧
    sampleV4.Nonce = 7 ∧ sampleV4.ObjectType = 0 ∧
    (MsgGetPubKey.BtcDecode 0 sampleV4 mismatchInput 3).2.1.Nonce = 9 ∧
    (MsgGetPubKey.BtcDecode 0 sampleV4 mismatchInput 3).2.1.ObjectType = 1 := by
  decide

/-- C4, amended: on every receiver and every input on which BtcDecode returns
an error, the receiver is left exactly so. Ripe and Tag are as before the
call. Nonce holds the value read from bytes 0 to 7 when the input has at least
8 bytes, and is as before otherwise. ObjectType holds the value read from
bytes 16 to 19 when the input has at least 20 bytes, and is as before
otherwise. ExpiresTime and Version are as before when the input has fewer than
20 bytes or the object type is not the expected one, the seconds read from
bytes 8 to 15 being dropped; otherwise ExpiresTime is time.Unix of those
seconds and 0 nanoseconds, and Version is the value readVarInt returned, which
is 0 when readVarInt failed. StreamNumber is the value the second readVarInt
returned when the header and the first varint were read and accepted, and is
as before otherwise. -/
theorem failed_decode_receiver_state (ObjectTypeGetPubKey : Nat) (msg : MsgGetPubKey)
    (r : Reader) (pver : Nat)
    (herr : (MsgGetPubKey.BtcDecode ObjectTypeGetPubKey msg r pver).1 ≠ none) :
    (MsgGetPubKey.BtcDecode ObjectTypeGetPubKey msg r pver).2.1 =
      { Nonce := if 8 ≤ r.length then beValue (r.take 8) else msg.Nonce
        ExpiresTime :=
          if 20 ≤ r.length ∧ beValue ((r.drop 16).take 4) = ObjectTypeGetPubKey then
            time.Unix (toInt64 (beValue ((r.drop 8).take 8))) 0
          else msg.ExpiresTime
        ObjectType := if 20 ≤ r.length then beValue ((r.drop 16).take 4) else msg.ObjectType
        Version :=
          if 20 ≤ r.length ∧ beValue ((r.drop 16).take 4) = ObjectTypeGetPubKey then
            (readVarInt (r.drop 20) pver).1
          else msg.Version
        StreamNumber :=
          if 20 ≤ r.length ∧ beValue ((r.drop 16).take 4) = ObjectTypeGetPubKey ∧
              (readVarInt (r.drop 20) pver).2.1 = none then
            (readVarInt (readVarInt (r.drop 20) pver).2.2 pver).1
          else msg.StreamNumber
        Ripe := msg.Ripe
        Tag := msg.Tag } ∧
    ∀ r0 : Reader, (readVarInt r0 pver).2.1 ≠ none → (readVarInt r0 pver).1 = 0 := by
  refine ⟨?_, fun r0 h0 => readVarInt_error_value r0 pver h0⟩
  by_cases h20 : 20 ≤ r.length
  · have h8 : 8 ≤ r.length := by omega
    unfold MsgGetPubKey.BtcDecode at herr ⊢
    rw [readElements_header msg r h20] at herr ⊢
    simp only at herr ⊢
    by_cases hne : beValue ((r.drop 16).take 4) = ObjectTypeGetPubKey
    · simp only [ne_eq, hne, not_true_eq_false, if_false] at herr ⊢
      rcases hv : readVarInt (r.drop 20) pver with ⟨v, e1, r2⟩
      rw [hv] at herr
      cases e1 with
      | some e => simp [h20, h8]
      | none =>
        simp only at herr ⊢
        rcases hs : readVarInt r2 pver with ⟨sn, e2, r3⟩
        rw [hs] at herr
        cases e2 with
        | some e => simp [h20, h8]
        | none =>
          simp only [h20, h8, hne, and_self, if_true] at herr ⊢
          by_cases h4 : v ≥ TagBasedRipeVersion
          · simp only [h4, if_true, readElement] at herr ⊢
            rcases hh : ReadFull r3 HashSize with ⟨x, r4⟩
            rw [hh] at herr
            cases x with
            | error e => rfl
            | ok b => simp at herr
          · simp only [h4, if_false, readElement] at herr ⊢
            rcases hh : ReadFull r3 RipeHashSize with ⟨x, r4⟩
            rw [hh] at herr
            cases x with
            | error e => rfl
            | ok b => simp at herr
    · simp [hne, h20, h8]
  · obtain ⟨err, he⟩ := readElements_header_short msg r (by omega)
    unfold MsgGetPubKey.BtcDecode
    rw [he]
    simp [h20]

/-- The amended C4 at three failing inputs, receiver sampleV4 (Nonce 7, 1000
seconds, ObjectType 0, Version 4, StreamNumber 1). At the object type
mismatch Nonce 9 and ObjectType 1 are stored and nothing else. At the 19 byte
input Nonce 9 is stored, and the seconds 5, although read, are not: ExpiresTime
stays at 1000 seconds. At the 20 byte header with nothing after it Nonce 9 and
5 seconds are stored, and Version is set to 0 by the failed varint read. -/
theorem failed_decode_receiver_state_witness :
    ((MsgGetPubKey.BtcDecode 0 sampleV4 mismatchInput 3).1 ≠ none ∧
      (MsgGetPubKey.BtcDecode 0 sampleV4 mismatchInput 3).2.1 =
        { sampleV4 with Nonce := 9, ObjectType := 1 }) ∧
    ((MsgGetPubKey.BtcDecode 0 sampleV4 shortInput 3).1 ≠ none ∧
      (MsgGetPubKey.BtcDecode 0 sampleV4 shortInput 3).2.1 = { sampleV4 with Nonce := 9 }) ∧
    ((MsgGetPubKey.BtcDecode 0 sampleV4 headerOnlyInput 3).1 ≠ none ∧
      (MsgGetPubKey.BtcDecode 0 sampleV4 headerOnlyInput 3).2.1 =
        { sampleV4 with Nonce := 9, ExpiresTime := ⟨5, 0⟩, Version := 0 }) :=
  ⟨⟨by decide,
      (failed_decode_receiver_state 0 sampleV4 mismatchInput 3 (by decide)).1.trans (by decide)⟩,
    ⟨by decide,
      (failed_decode_receiver_state 0 sampleV4 shortInput 3 (by decide)).1.trans (by decide)⟩,
    ⟨by decide,
      (failed_decode_receiver_state 0 sampleV4 headerOnlyInput 3 (by decide)).1.trans
        (by decide)⟩⟩

/-- C5, the code at the failing input: for Version = StreamNumber = 2^32
BtcEncode succeeds and writes 70 bytes, while MaxPayloadLength is 68. -/
theorem maxPayloadLength_exceeded :
    sampleWide.wellFormed ∧
    (sampleWide.BtcEncode Writer.empty 3).1 = none ∧
    (sampleWide.BtcEncode Writer.empty 3).2.buf.length = 70 ∧
    sampleWide.MaxPayloadLength 3 = 68 ∧
    ¬ (sampleWide.BtcEncode Writer.empty 3).2.buf.length ≤ sampleWide.MaxPayloadLength 3 := by
  decide

/-- C6: for every well-formed message, every pver and every growing buffer,
BtcEncode succeeds and appends exactly the layout of the spec: the Nonce in 8
bytes most significant first, the seconds of ExpiresTime as a two's complement
64-bit value in 8 bytes most significant first, the ObjectType in 4 bytes most
significant first, varint(Version), varint(StreamNumber), then the Tag
(Version at least 4) or the Ripe (Version below 4) unchanged; the length is
20 + len(varint(Version)) + len(varint(StreamNumber)) + 32 or 20. -/
theorem wire_layout (m : MsgGetPubKey) (b : List Nat) (pver : Nat) (hm : m.wellFormed) :
    m.BtcEncode ⟨b, none⟩ pver = (none, ⟨b ++ wireLayout m, none⟩) ∧
    wireLayout m =
      [m.Nonce / 72057594037927936 % 256, m.Nonce / 281474976710656 % 256,
        m.Nonce / 1099511627776 % 256, m.Nonce / 4294967296 % 256, m.Nonce / 16777216 % 256,
        m.Nonce / 65536 % 256, m.Nonce / 256 % 256, m.Nonce % 256] ++
      [toUint64 m.ExpiresTime.Unix / 72057594037927936 % 256,
        toUint64 m.ExpiresTime.Unix / 281474976710656 % 256,
        toUint64 m.ExpiresTime.Unix / 1099511627776 % 256,
        toUint64 m.ExpiresTime.Unix / 4294967296 % 256,
        toUint64 m.ExpiresTime.Unix / 16777216 % 256,
        toUint64 m.ExpiresTime.Unix / 65536 % 256,
        toUint64 m.ExpiresTime.Unix / 256 % 256, toUint64 m.ExpiresTime.Unix % 256] ++
      [m.ObjectType / 16777216 % 256, m.ObjectType / 65536 % 256, m.ObjectType / 256 % 256,
        m.ObjectType % 256] ++
      varInt m.Version ++ varInt m.StreamNumber ++
      (if m.Version ≥ 4 then m.Tag else m.Ripe) ∧
    (wireLayout m).length =
      20 + (varInt m.Version).length + (varInt m.StreamNumber).length +
        (if m.Version ≥ 4 then 32 else 20) := by
  have hT : m.Tag.length = 32 := hm.2.2.2.2.2.2.2.2.2.1
  have hR : m.Ripe.length = 20 := hm.2.2.2.2.2.2.2.1
  refine ⟨BtcEncode_buffer m b pver, ?_, ?_⟩
  · unfold wireLayout
    rw [beBytes_eight, beBytes_eight, beBytes_four]
  · unfold wireLayout
    rw [List.length_append, wireLayout_hash_length]
    split_ifs
    · rw [hT]
    · rw [hR]

/-- The theorem of C6 at the version 3 sample message: 42 bytes, the last 20
the Ripe. -/
theorem wire_layout_witness :
    sampleV3.wellFormed ∧
    sampleV3.BtcEncode ⟨[], none⟩ 3 =
      (none, ⟨[0, 0, 0, 0, 0, 0, 0, 7] ++ [0, 0, 0, 0, 0, 0, 3, 232] ++ [0, 0, 0, 0] ++ [3] ++
        [1] ++ List.replicate 20 1, none⟩) :=
  ⟨by decide, (wire_layout sampleV3 [] 3 (by decide)).1.trans (by decide)⟩

/-- C7: for every well-formed message with ObjectType = ObjectTypeGetPubKey,
every receiver and every k below the length of the encoding, BtcDecode of the
first k bytes of the encoding returns an error. -/
theorem truncated_input_rejected (ObjectTypeGetPubKey : Nat) (m msg0 : MsgGetPubKey)
    (pver k : Nat) (hm : m.wellFormed) (ho : m.ObjectType = ObjectTypeGetPubKey)
    (hk : k < (m.BtcEncode Writer.empty pver).2.buf.length) :
    (MsgGetPubKey.BtcDecode ObjectTypeGetPubKey msg0
      ((m.BtcEncode Writer.empty pver).2.buf.take k) pver).1 ≠ none := by
  subst ho
  simp only [Writer.empty, BtcEncode_buffer, List.nil_append] at hk ⊢
  intro hnone
  rcases hres : MsgGetPubKey.BtcDecode m.ObjectType msg0 ((wireLayout m).take k) pver
    with ⟨e, d, r1⟩
  rw [hres] at hnone
  simp only at hnone
  subst hnone
  have h1 := BtcDecode_ok_append m.ObjectType msg0 ((wireLayout m).take k)
    ((wireLayout m).drop k) pver d r1 hres
  rw [List.take_append_drop] at h1
  have h2 := BtcDecode_wireLayout m msg0 [] pver hm
  rw [List.append_nil, h1] at h2
  simp only [Prod.mk.injEq, true_and, List.append_eq_nil] at h2
  have h3 := congrArg List.length h2.2.2
  simp only [List.length_drop, List.length_nil] at h3
  omega

/-- The theorem of C7 at the version 4 sample message cut after 53 of its 54
bytes, and at the empty input. -/
theorem truncated_input_rejected_witness :
    sampleV4.wellFormed ∧ sampleV4.ObjectType = 0 ∧
    53 < (sampleV4.BtcEncode Writer.empty 3).2.buf.length ∧
    (MsgGetPubKey.BtcDecode 0 MsgGetPubKey.zero
      ((sampleV4.BtcEncode Writer.empty 3).2.buf.take 53) 3).1 ≠ none ∧
    (MsgGetPubKey.BtcDecode 0 MsgGetPubKey.zero
      ((sampleV4.BtcEncode Writer.empty 3).2.buf.take 0) 3).1 ≠ none :=
  ⟨by decide, by decide, by decide,
    truncated_input_rejected 0 sampleV4 MsgGetPubKey.zero 3 53 (by decide) (by decide)
      (by decide),
    truncated_input_rejected 0 sampleV4 MsgGetPubKey.zero 3 0 (by decide) (by decide)
      (by decide)⟩

/-- C8: for every 64-bit mask f, ServiceFlag.String gives "0x0" for 0,
"SFNodeNetwork" for SFNodeNetwork, "SFNodeNetwork|0x" and the lowercase
hexadecimal of f - 1 (f with bit 0 cleared) when bit 0 and other bits are set,
and "0x" and the lowercase hexadecimal of f when f is not 0 and bit 0 is
clear; the result neither begins nor ends with the separator. -/
theorem serviceFlag_rendering (f : Nat) (hf : f < 18446744073709551616) :
    (f = 0 → ServiceFlag.String f = "0x0") ∧
    (f = SFNodeNetwork → ServiceFlag.String f = "SFNodeNetwork") ∧
    (f % 2 = 1 → f ≠ 1 →
      ServiceFlag.String f = "SFNodeNetwork|0x" ++ strconv.FormatUint (f - 1) 16) ∧
    (f ≠ 0 → f % 2 = 0 → ServiceFlag.String f = "0x" ++ strconv.FormatUint f 16) ∧
    (ServiceFlag.String f).data.head? ≠ some '|' ∧
    (ServiceFlag.String f).data.getLast? ≠ some '|' := by
  have hodd : f % 2 = 1 → f ≠ 1 →
      ServiceFlag.String f = "SFNodeNetwork|0x" ++ strconv.FormatUint (f - 1) 16 := by
    intro h1 hne
    rw [sfString_odd f h1, if_pos (by omega), ← String.append_assoc]
    rfl
  refine ⟨?_, ?_, hodd, sfString_even f, ?_⟩
  · rintro rfl
    decide
  · rintro rfl
    decide
  · by_cases h0 : f = 0
    · subst h0
      decide
    by_cases h1 : f = 1
    · subst h1
      decide
    rcases Nat.mod_two_eq_zero_or_one f with h2 | h2
    · rw [sfString_even f h0 h2]
      have hy : ("0x" : String).data = ['0', 'x'] := rfl
      refine ⟨by simp [hy], ?_⟩
      rw [String.data_append]
      exact getLast?_append_hex _ _
    · rw [hodd h2 h1]
      have hy : ("SFNodeNetwork|0x" : String).data
          = 'S' :: ("FNodeNetwork|0x" : String).data := rfl
      refine ⟨by simp [hy], ?_⟩
      rw [String.data_append]
      exact getLast?_append_hex _ _

/-- The theorem of C8 at the three values of the test: 0, SFNodeNetwork and
0xffffffff. -/
theorem serviceFlag_rendering_witness :
    ServiceFlag.String 0 = "0x0" ∧
    ServiceFlag.String SFNodeNetwork = "SFNodeNetwork" ∧
    ServiceFlag.String 0xffffffff = "SFNodeNetwork|0xfffffffe" :=
  ⟨(serviceFlag_rendering 0 (by decide)).1 rfl,
    (serviceFlag_rendering SFNodeNetwork (by decide)).2.1 rfl,
    ((serviceFlag_rendering 0xffffffff (by decide)).2.2.1 (by decide) (by decide)).trans
      (by decide)⟩

/-- C9: for every 32-bit n, BitcoinNet.String gives "MainNet" for MainNet
(0xe9beb4d9) and, for every other n, "Unknown BitcoinNet (" followed by the
decimal representation of n and ")". -/
theorem bitcoinNet_rendering (n : Nat) (hn : n < 4294967296) :
    MainNet = 0xe9beb4d9 ∧
    (n = MainNet → BitcoinNet.String n = "MainNet") ∧
    (n ≠ MainNet → BitcoinNet.String n = "Unknown BitcoinNet (" ++ Nat.repr n ++ ")") := by
  refine ⟨rfl, ?_, ?_⟩
  · rintro rfl
    decide
  · intro hne
    have hl : bnStrings.lookup n = none := by
      simp only [bnStrings, List.lookup]
      have : (n == MainNet) = false := by simpa using hne
      rw [this]
    unfold BitcoinNet.String
    rw [hl, Nat.mod_eq_of_lt hn]
    rfl

/-- The theorem of C9 at MainNet and at 5. -/
theorem bitcoinNet_rendering_witness :
    BitcoinNet.String 0xe9beb4d9 = "MainNet" ∧
    BitcoinNet.String 5 = "Unknown BitcoinNet (5)" :=
  ⟨(bitcoinNet_rendering 0xe9beb4d9 (by decide)).2.1 (by decide),
    ((bitcoinNet_rendering 5 (by decide)).2.2 (by decide)).trans (by decide)⟩

/-- C10, the code at the value of the test: for 0xffffffff BitcoinNet.String
returns "Unknown BitcoinNet (4294967295)", which is not the string
"Unknown BitmessageNet (4294967295)" that TestBitmessageNetStringer expects. -/
theorem bitmessageNet_test_value :
    BitcoinNet.String 0xffffffff = "Unknown BitcoinNet (4294967295)" ∧
    BitcoinNet.String 0xffffffff ≠ "Unknown BitmessageNet (4294967295)" := by
  decide

/-- C11, the code at a failing input: for an expires time of 1000 s and
500000000 ns NewMsgGetPubKey returns a message whose ExpiresTime still has the
500000000 ns, not the time built from expires.Unix() seconds and 0
nanoseconds; the other fields are the arguments and ObjectType is
ObjectTypeGetPubKey. -/
theorem newMsgGetPubKey_keeps_subsecond :
    sampleSubSecond.ExpiresTime.nsec = 500000000 ∧
    sampleSubSecond.ExpiresTime ≠ time.Unix sampleExpires.Unix 0 ∧
    sampleSubSecond.ExpiresTime = sampleExpires ∧
    sampleSubSecond.Nonce = 7 ∧ sampleSubSecond.ObjectType = 0 ∧
    sampleSubSecond.Version = 4 ∧ sampleSubSecond.StreamNumber = 1 ∧
    sampleSubSecond.Ripe = List.replicate 20 1 ∧ sampleSubSecond.Tag = List.replicate 32 2 := by
  decide

/-- C12: for every pver, every sink and every source, MsgVerAck.Encode returns
no error and leaves the sink as it was, so it writes zero bytes, and
MsgVerAck.Decode returns no error and leaves the source and the receiver as
they were, so it consumes zero bytes. -/
theorem verack_empty_payload (msg : MsgVerAck) (w : Writer) (r : Reader) (pver : Nat) :
    (msg.Encode w pver).1 = none ∧ (msg.Encode w pver).2 = w ∧
    (msg.Encode w pver).2.buf.length = w.buf.length + 0 ∧
    (msg.Decode r pver).1 = none ∧ (msg.Decode r pver).2.2 = r ∧
    (msg.Decode r pver).2.2.length + 0 = r.length ∧ (msg.Decode r pver).2.1 = msg :=
  ⟨rfl, rfl, rfl, rfl, rfl, rfl, rfl⟩

/-- C13: MsgVerAck.MaxPayloadLength is 0 for every pver, and the number of
bytes MsgVerAck.Encode adds to any sink is equal to it. -/
theorem verack_maxPayloadLength (msg : MsgVerAck) (w : Writer) (pver : Nat) :
    msg.MaxPayloadLength pver = 0 ∧
    (msg.Encode w pver).2.buf.length - w.buf.length = msg.MaxPayloadLength pver := by
  simp [MsgVerAck.MaxPayloadLength, MsgVerAck.Encode]

/-- C14: for every 64-bit v, writeVarInt into a growing buffer succeeds and
appends the shortest form: the byte v below 0xfd; 0xfd and 2 little-endian
bytes up to 0xffff; 0xfe and 4 bytes up to 0xffffffff; 0xff and 8 bytes above;
every byte written is below 256; and readVarInt on those bytes, whatever
follows them, returns v without error and leaves exactly what follows. -/
theorem varint_roundtrip (v pver : Nat) (b t : List Nat) (hv : v < 18446744073709551616) :
    (writeVarInt ⟨b, none⟩ pver v).1 = none ∧
    (v < 0xfd → (writeVarInt ⟨b, none⟩ pver v).2.buf = b ++ [v]) ∧
    (0xfd ≤ v → v ≤ 0xffff →
      (writeVarInt ⟨b, none⟩ pver v).2.buf = b ++ [0xfd, v % 256, v / 256 % 256]) ∧
    (0xffff < v → v ≤ 0xffffffff →
      (writeVarInt ⟨b, none⟩ pver v).2.buf =
        b ++ [0xfe, v % 256, v / 256 % 256, v / 65536 % 256, v / 16777216 % 256]) ∧
    (0xffffffff < v →
      (writeVarInt ⟨b, none⟩ pver v).2.buf =
        b ++ [0xff, v % 256, v / 256 % 256, v / 65536 % 256, v / 16777216 % 256,
          v / 4294967296 % 256, v / 1099511627776 % 256, v / 281474976710656 % 256,
          v / 72057594037927936 % 256]) ∧
    (∀ x ∈ (writeVarInt ⟨[], none⟩ pver v).2.buf, x < 256) ∧
    readVarInt ((writeVarInt ⟨[], none⟩ pver v).2.buf ++ t) pver = (v, none, t) := by
  simp only [writeVarInt_buffer, List.nil_append]
  refine ⟨trivial, ?_, ?_, ?_, ?_, ?_, readVarInt_varInt v pver t hv⟩
  · intro h
    simp [varInt, h]
  · intro h1 h2
    rw [varInt, if_neg (by omega), if_pos h2]
    simp [leBytes, Nat.div_div_eq_div_mul]
  · intro h1 h2
    rw [varInt, if_neg (by omega), if_neg (by omega), if_pos h2]
    simp [leBytes, Nat.div_div_eq_div_mul]
  · intro h1
    rw [varInt, if_neg (by omega), if_neg (by omega), if_neg (by omega)]
    simp [leBytes, Nat.div_div_eq_div_mul]
  · intro x hx
    unfold varInt at hx
    split_ifs at hx with h1 h2 h3
    · simp only [List.mem_singleton] at hx
      omega
    · rcases List.mem_cons.1 hx with rfl | hx
      · norm_num
      · exact leBytes_lt _ _ x hx
    · rcases List.mem_cons.1 hx with rfl | hx
      · norm_num
      · exact leBytes_lt _ _ x hx
    · rcases List.mem_cons.1 hx with rfl | hx
      · norm_num
      · exact leBytes_lt _ _ x hx

/-- The theorem of C14 at 0xfc, 0xfd, 0x10000 and 2^32, the least values of
the four forms but the first. -/
theorem varint_roundtrip_witness :
    (writeVarInt ⟨[], none⟩ 3 0xfc).2.buf = [0xfc] ∧
    (writeVarInt ⟨[], none⟩ 3 0xfd).2.buf = [0xfd, 0xfd, 0] ∧
    (writeVarInt ⟨[], none⟩ 3 0x10000).2.buf = [0xfe, 0, 0, 1, 0] ∧
    (writeVarInt ⟨[], none⟩ 3 0x100000000).2.buf = [0xff, 0, 0, 0, 0, 1, 0, 0, 0] ∧
    readVarInt ((writeVarInt ⟨[], none⟩ 3 0x100000000).2.buf ++ [5]) 3
      = (0x100000000, none, [5]) :=
  ⟨(varint_roundtrip 0xfc 3 [] [] (by decide)).2.1 (by decide),
    (varint_roundtrip 0xfd 3 [] [] (by decide)).2.2.1 (by decide) (by decide),
    (varint_roundtrip 0x10000 3 [] [] (by decide)).2.2.2.1 (by decide) (by decide),
    (varint_roundtrip 0x100000000 3 [] [] (by decide)).2.2.2.2.1 (by decide),
    (varint_roundtrip 0x100000000 3 [] [5] (by decide)).2.2.2.2.2.2⟩

/-- C15: for every well-formed message with ObjectType = ObjectTypeGetPubKey,
every receiver and every byte string t, BtcDecode on the encoding followed by
t succeeds, leaves in the receiver the same message as BtcDecode on the
encoding alone, which succeeds too and leaves nothing, and leaves exactly t
unread. -/
theorem decode_consumes_one_message (ObjectTypeGetPubKey : Nat) (m msg0 : MsgGetPubKey)
    (pver : Nat) (t : List Nat) (hm : m.wellFormed) (ho : m.ObjectType = ObjectTypeGetPubKey) :
    (MsgGetPubKey.BtcDecode ObjectTypeGetPubKey msg0
      ((m.BtcEncode Writer.empty pver).2.buf ++ t) pver).1 = none ∧
    (MsgGetPubKey.BtcDecode ObjectTypeGetPubKey msg0
      ((m.BtcEncode Writer.empty pver).2.buf ++ t) pver).2.1 =
      (MsgGetPubKey.BtcDecode ObjectTypeGetPubKey msg0
        (m.BtcEncode Writer.empty pver).2.buf pver).2.1 ∧
    (MsgGetPubKey.BtcDecode ObjectTypeGetPubKey msg0
      ((m.BtcEncode Writer.empty pver).2.buf ++ t) pver).2.2 = t ∧
    (MsgGetPubKey.BtcDecode ObjectTypeGetPubKey msg0
      (m.BtcEncode Writer.empty pver).2.buf pver).1 = none ∧
    (MsgGetPubKey.BtcDecode ObjectTypeGetPubKey msg0
      (m.BtcEncode Writer.empty pver).2.buf pver).2.2 = [] := by
  subst ho
  have h0 := BtcDecode_wireLayout m msg0 [] pver hm
  rw [List.append_nil] at h0
  simp only [Writer.empty, BtcEncode_buffer, List.nil_append,
    BtcDecode_wireLayout m msg0 t pver hm, h0]
  exact ⟨trivial, trivial, trivial, trivial, trivial⟩

/-- The theorem of C15 at the version 3 sample message followed by the three
bytes 9, 8, 7. -/
theorem decode_consumes_one_message_witness :
    sampleV3.wellFormed ∧ sampleV3.ObjectType = 0 ∧
    (MsgGetPubKey.BtcDecode 0 MsgGetPubKey.zero
      ((sampleV3.BtcEncode Writer.empty 3).2.buf ++ [9, 8, 7]) 3).1 = none ∧
    (MsgGetPubKey.BtcDecode 0 MsgGetPubKey.zero
      ((sampleV3.BtcEncode Writer.empty 3).2.buf ++ [9, 8, 7]) 3).2.2 = [9, 8, 7] :=
  have h := decode_consumes_one_message 0 sampleV3 MsgGetPubKey.zero 3 [9, 8, 7]
    (by decide) (by decide)
  ⟨by decide, by decide, h.1, h.2.2.1⟩

/-- C17: for every well-formed message, whatever its ObjectType, BtcEncode
into a growing buffer succeeds and writes that ObjectType big-endian at bytes
16 to 19; when the ObjectType is not ObjectTypeGetPubKey, BtcDecode of the
bytes written returns the object type message error; so BtcDecode of the
encoding succeeds if and only if the ObjectType is ObjectTypeGetPubKey. -/
theorem encode_does_not_validate (ObjectTypeGetPubKey : Nat) (m msg0 : MsgGetPubKey)
    (b : List Nat) (pver : Nat) (hm : m.wellFormed) :
    (m.BtcEncode ⟨b, none⟩ pver).1 = none ∧
    (((m.BtcEncode Writer.empty pver).2.buf.drop 16).take 4) = beBytes 4 m.ObjectType ∧
    beValue (((m.BtcEncode Writer.empty pver).2.buf.drop 16).take 4) = m.ObjectType ∧
    (m.ObjectType ≠ ObjectTypeGetPubKey →
      (MsgGetPubKey.BtcDecode ObjectTypeGetPubKey msg0
        (m.BtcEncode Writer.empty pver).2.buf pver).1 =
      some (Error.MessageError "BtcDecode"
        ("Object Type should be " ++ fmtD ObjectTypeGetPubKey ++ ", but is " ++
          fmtD m.ObjectType))) ∧
    ((MsgGetPubKey.BtcDecode ObjectTypeGetPubKey msg0
        (m.BtcEncode Writer.empty pver).2.buf pver).1 = none ↔
      m.ObjectType = ObjectTypeGetPubKey) := by
  have hO : m.ObjectType < 4294967296 := hm.2.2.2.2.1
  have e4 : (256 : Nat) ^ 4 = 4294967296 := by norm_num
  have hv : beValue (((wireLayout m).drop 16).take 4) = m.ObjectType := by
    rw [wireLayout_objectType, beValue_beBytes, e4, Nat.mod_eq_of_lt hO]
  have hmis : m.ObjectType ≠ ObjectTypeGetPubKey →
      (MsgGetPubKey.BtcDecode ObjectTypeGetPubKey msg0 (wireLayout m) pver).1 =
      some (Error.MessageError "BtcDecode"
        ("Object Type should be " ++ fmtD ObjectTypeGetPubKey ++ ", but is " ++
          fmtD m.ObjectType)) := by
    intro hne
    rw [BtcDecode_mismatch ObjectTypeGetPubKey msg0 (wireLayout m) pver
      (wireLayout_length_ge m) (by rw [hv]; exact hne), hv]
  simp only [Writer.empty, BtcEncode_buffer, List.nil_append]
  refine ⟨trivial, wireLayout_objectType m, hv, hmis, ?_, ?_⟩
  · intro hnone
    by_contra hne
    rw [hmis hne] at hnone
    simp at hnone
  · intro ho
    subst ho
    have h0 := BtcDecode_wireLayout m msg0 [] pver hm
    rw [List.append_nil] at h0
    rw [h0]

/-- The theorem of C17 at a message with ObjectType 1 where 0 is expected. -/
theorem encode_does_not_validate_witness :
    sampleOtherType.wellFormed ∧ sampleOtherType.ObjectType ≠ 0 ∧
    (sampleOtherType.BtcEncode ⟨[], none⟩ 3).1 = none ∧
    (MsgGetPubKey.BtcDecode 0 MsgGetPubKey.zero
      (sampleOtherType.BtcEncode Writer.empty 3).2.buf 3).1 =
      some (Error.MessageError "BtcDecode" "Object Type should be 0, but is 1") :=
  have h := encode_does_not_validate 0 sampleOtherType MsgGetPubKey.zero [] 3 (by decide)
  ⟨by decide, by decide, h.1, (h.2.2.2.1 (by decide)).trans (by decide)⟩

/-- C16: for every string b of bytes on which BtcDecode succeeds, into a
zero-valued or any other receiver, and in which the version and stream number
varints are in their shortest form, BtcEncode of the decoded message into an
empty buffer succeeds and writes exactly the bytes of b that BtcDecode
consumed: what it writes, followed by what BtcDecode left unread, is b. For
every seconds value sec, time.Unix(sec, 0).Unix() = sec. -/
theorem reencode_reproduces_wire (ObjectTypeGetPubKey : Nat) (msg0 : MsgGetPubKey)
    (b : List Nat) (pver : Nat) (d : MsgGetPubKey) (r1 : Reader) (hb : ∀ x ∈ b, x < 256)
    (hdec : MsgGetPubKey.BtcDecode ObjectTypeGetPubKey msg0 b pver = (none, d, r1))
    (hc1 : canonicalVarInt (b.drop 20))
    (hc2 : canonicalVarInt (readVarInt (b.drop 20) pver).2.2) :
    (d.BtcEncode Writer.empty pver).1 = none ∧
    (d.BtcEncode Writer.empty pver).2.buf ++ r1 = b ∧
    (d.BtcEncode Writer.empty pver).2.buf = b.take (b.length - r1.length) ∧
    (((d.BtcEncode Writer.empty pver).2.buf.drop 8).take 8) = (b.drop 8).take 8 ∧
    ∀ sec : Int, (time.Unix sec 0).Unix = sec := by
  have hw := BtcDecode_reencode ObjectTypeGetPubKey msg0 b pver d r1 hb hdec hc1 hc2
  have hlen : (wireLayout d).length = b.length - r1.length := by
    have := congrArg List.length hw
    rw [List.length_append] at this
    omega
  have htake : wireLayout d = b.take (b.length - r1.length) := by
    rw [← hlen]
    have h := @List.take_left' _ (wireLayout d) r1 _ rfl
    rw [hw] at h
    exact h.symm
  simp only [Writer.empty, BtcEncode_buffer, List.nil_append]
  refine ⟨trivial, hw, htake, ?_, ?_⟩
  · have h16 : 16 ≤ (wireLayout d).length := by
      have := wireLayout_length_ge d
      omega
    conv_rhs => rw [← hw]
    rw [List.drop_append_of_le_length (by omega),
      List.take_append_of_le_length (by simp; omega)]
  · intro sec
    rw [time_Unix_zero]
    rfl

/-- The theorem of C16 at a 43 byte input: the 42 bytes of a version 3
message and one byte more, which stays unread and is not written back. -/
theorem reencode_reproduces_wire_witness :
    (∀ x ∈ sampleWire, x < 256) ∧
    (MsgGetPubKey.BtcDecode 0 MsgGetPubKey.zero sampleWire 3).1 = none ∧
    canonicalVarInt (sampleWire.drop 20) ∧
    canonicalVarInt (readVarInt (sampleWire.drop 20) 3).2.2 ∧
    (MsgGetPubKey.BtcDecode 0 MsgGetPubKey.zero sampleWire 3).2.2 = [9] ∧
    ((MsgGetPubKey.BtcDecode 0 MsgGetPubKey.zero sampleWire 3).2.1.BtcEncode
      Writer.empty 3).2.buf ++ [9] = sampleWire :=
  have h := reencode_reproduces_wire 0 MsgGetPubKey.zero sampleWire 3
    (MsgGetPubKey.BtcDecode 0 MsgGetPubKey.zero sampleWire 3).2.1 [9]
    (by decide) (by decide) (by decide) (by decide)
  ⟨by decide, by decide, by decide, by decide, by decide, h.2.1⟩

/-- C18: ServiceFlag.String is injective on the 64-bit masks: two masks with
the same rendering are equal. -/
theorem serviceFlag_String_injective (f g : Nat) (hf : f < 18446744073709551616)
    (hg : g < 18446744073709551616) (h : ServiceFlag.String f = ServiceFlag.String g) :
    f = g := by
  have hd : (ServiceFlag.String f).data = (ServiceFlag.String g).data := by rw [h]
  rw [sfString_data f, sfString_data g] at hd
  have hS : ("SFNodeNetwork" : String).data = 'S' :: ("FNodeNetwork" : String).data := rfl
  by_cases h2f : f % 2 = 0 <;> by_cases h2g : g % 2 = 0
  · simp only [h2f, h2g, if_true, List.cons.injEq, true_and] at hd
    exact FormatUint_hex_injective f g hd
  · simp only [h2f, h2g, if_true, if_false, hS, List.cons_append, List.cons.injEq] at hd
    exact absurd hd.1 (by decide)
  · simp only [h2f, h2g, if_true, if_false, hS, List.cons_append, List.cons.injEq] at hd
    exact absurd hd.1 (by decide)
  · simp only [h2f, h2g, if_false, List.append_cancel_left_eq] at hd
    by_cases h1f : f - 1 = 0 <;> by_cases h1g : g - 1 = 0
    · omega
    · simp [h1f, h1g] at hd
    · simp [h1f, h1g] at hd
    · simp only [ne_eq, h1f, h1g, not_false_eq_true, if_true, List.cons.injEq, true_and] at hd
      have := FormatUint_hex_injective (f - 1) (g - 1) hd
      omega

/-- The theorem of C18 at two equal masks, and the renderings of two masks that
differ in an unnamed bit only. -/
theorem serviceFlag_String_injective_witness :
    (0xffffffff : Nat) < 18446744073709551616 ∧
    ServiceFlag.String 0xffffffff = ServiceFlag.String (0xfffffffe + 1) ∧
    0xffffffff = 0xfffffffe + 1 ∧
    ServiceFlag.String 3 ≠ ServiceFlag.String 5 :=
  ⟨by decide, by decide,
    serviceFlag_String_injective 0xffffffff (0xfffffffe + 1) (by decide) (by decide) (by decide),
    by decide⟩

end bmwire
